import Mathlib

/-!
# lm-sensors: growable array (`lib/general.c`) and `/proc/bus/i2c` module (`src/i2c-proc.c`)

A shallow embedding of the two C files and the properties of their specification.

Conventions of the embedding

* A C `int` is 32 bits wide.  The value of an `int` expression is computed in `Int`
  (`%` is C's truncating remainder, `Int.tmod`); when it is not between `INT_MIN` and
  `INT_MAX` the expression overflows, which is undefined behaviour in C, and the
  function that evaluates it returns `Fault.undefined`.
* A heap block of elements is a list of cells, `none` being a cell that was never written.
  Elements are abstract values of `el_size` bytes each, `el_size` being the one element
  size every call on an array passes: a `memcpy` of `el_size` bytes at byte offset
  `i * el_size` is a write of one element at cell `i`.  The byte counts the source
  computes (`el_size * A_BUNCH`, `new_max_el * el_size`, `*num_el * el_size`,
  `el_size * nr_els`) are kept as `int` expressions that can overflow.
* Code that cannot continue returns an error: `Fault.fatal` when `sensors_fatal_error`
  ends the process, `Fault.undefined` when an `int` expression overflows, when a
  `memcpy` would leave its block, or when `el_size` is not positive.
* The outcome of every call into the host (allocator, proc filesystem, i2c core) is an
  input of the function that makes the call.
-/

namespace Sensors

/-! ## `lib/general.c` -/

/-- The growth increment, `#define A_BUNCH 16`. -/
def A_BUNCH : Int := 16

/-- Why a call did not return. -/
inductive Fault where
  | fatal
  | undefined
  deriving DecidableEq, Repr

/-- The three objects the array functions work on: `*list`, `*num_el`, `*max_el`.
`list = []` is the `NULL` pointer as well as a block of no cells. -/
structure SArray (α : Type) where
  list : List (Option α)
  num_el : Int
  max_el : Int
  deriving DecidableEq, Repr

/-- Modelled from the spec: `sensors_fatal_error` is declared in a file that is not part
of the sources; "fails fatally (process-level abort) on allocation failure", so the
call never returns to the array function. -/
def sensors_fatal_error {β : Type} : Except Fault β := .error .fatal

/-- The block `malloc (el_size * n)` returns: `n` cells, none of them written. -/
def malloc_cells {α : Type} (n : Int) : List (Option α) :=
  List.replicate n.toNat none

/-- The block `realloc (p, el_size * n)` returns: the old cells that fit, then fresh
cells up to `n`. -/
def realloc_cells {α : Type} (cells : List (Option α)) (n : Int) : List (Option α) :=
  cells.take n.toNat ++ List.replicate (n.toNat - cells.length) none

/-- The call `memcpy (((char *) list) + offset * el_size, src, el_size * n)`: `n`
elements of the caller's buffer `src` are written to the cells
`offset .. offset + n - 1`.  The call is undefined when `n` or `offset` is negative,
when `src` holds fewer than `n` elements or when the cells written are not all inside
the block. -/
def memcpy_cells {α : Type} (cells : List (Option α)) (offset : Int) (src : List α)
    (n : Int) : Except Fault (List (Option α)) :=
  if 0 ≤ n ∧ 0 ≤ offset ∧ n ≤ src.length ∧ offset + n ≤ cells.length then
    .ok (cells.take offset.toNat ++ (src.take n.toNat).map some
          ++ cells.drop (offset.toNat + n.toNat))
  else .error .undefined

/-- The largest `int`. -/
def INT_MAX : Int := 2147483647

/-- The smallest `int`. -/
def INT_MIN : Int := -2147483648

/-- The value is one an `int` holds.  An `int` expression with another value
overflows. -/
def fitsInt (x : Int) : Prop := INT_MIN ≤ x ∧ x ≤ INT_MAX

instance (x : Int) : Decidable (fitsInt x) := by
  unfold fitsInt
  infer_instance

/-- The function `sensors_malloc_array`; `allocOk` tells whether `malloc` returned a
block.  The byte count `el_size*A_BUNCH` is an `int` expression.  Here and in the
append functions `el_size` is the size of an element type, at least 1; a call with
another `el_size` is given no result. -/
def sensors_malloc_array {α : Type} (allocOk : Bool) (el_size : Int) :
    Except Fault (SArray α) :=
  if ¬ 0 < el_size then .error .undefined
  else if ¬ fitsInt (el_size * A_BUNCH) then .error .undefined
  else if allocOk then
    .ok { list := malloc_cells A_BUNCH, max_el := A_BUNCH, num_el := 0 }
  else sensors_fatal_error

/-- The function `sensors_free_array`. -/
def sensors_free_array {α : Type} (_a : SArray α) : SArray α :=
  { list := [], num_el := 0, max_el := 0 }

/-- The function `sensors_add_array_el`; `allocOk` tells whether `realloc`, if it is
called, returns a block.  The `int` expressions are checked in the order the function
evaluates them: `*num_el + 1`, then when the block grows `*max_el + A_BUNCH` and
`new_max_el * el_size`, then `*num_el * el_size`. -/
def sensors_add_array_el {α : Type} (allocOk : Bool) (el_size : Int) (el : α)
    (a : SArray α) : Except Fault (SArray α) :=
  if ¬ 0 < el_size then .error .undefined
  else if ¬ fitsInt (a.num_el + 1) then .error .undefined
  else
    let grown : Except Fault (SArray α) :=
      if a.num_el + 1 > a.max_el then
        let new_max_el := a.max_el + A_BUNCH
        if ¬ (fitsInt new_max_el ∧ fitsInt (new_max_el * el_size)) then .error .undefined
        else if allocOk then .ok { a with list := realloc_cells a.list new_max_el,
                                          max_el := new_max_el }
        else sensors_fatal_error
      else .ok a
    match grown with
    | .error f => .error f
    | .ok b =>
      if ¬ fitsInt (b.num_el * el_size) then .error .undefined
      else
        match memcpy_cells b.list b.num_el [el] 1 with
        | .error f => .error f
        | .ok cells => .ok { b with list := cells, num_el := b.num_el + 1 }

/-- The function `sensors_add_array_els`; `els` is the content of the caller's buffer.
The `int` expressions are checked in the order the function evaluates them:
`*num_el + nr_els`, then when the block grows `*max_el + nr_els`, `... + A_BUNCH` and
`new_max_el * el_size`, then `*num_el * el_size` and `el_size * nr_els`. -/
def sensors_add_array_els {α : Type} (allocOk : Bool) (el_size : Int) (els : List α)
    (nr_els : Int) (a : SArray α) : Except Fault (SArray α) :=
  if ¬ 0 < el_size then .error .undefined
  else if ¬ fitsInt (a.num_el + nr_els) then .error .undefined
  else
    let grown : Except Fault (SArray α) :=
      if a.num_el + nr_els > a.max_el then
        if ¬ (fitsInt (a.max_el + nr_els) ∧ fitsInt (a.max_el + nr_els + A_BUNCH)) then
          .error .undefined
        else
          let new_max_el := a.max_el + nr_els + A_BUNCH
          let new_max_el := new_max_el - new_max_el.tmod A_BUNCH
          if ¬ fitsInt (new_max_el * el_size) then .error .undefined
          else if allocOk then .ok { a with list := realloc_cells a.list new_max_el,
                                            max_el := new_max_el }
          else sensors_fatal_error
      else .ok a
    match grown with
    | .error f => .error f
    | .ok b =>
      if ¬ (fitsInt (b.num_el * el_size) ∧ fitsInt (el_size * nr_els)) then .error .undefined
      else
        match memcpy_cells b.list b.num_el els nr_els with
        | .error f => .error f
        | .ok cells => .ok { b with list := cells, num_el := b.num_el + nr_els }

/-- One call on an existing array. -/
inductive ArrayCall (α : Type) where
  | append (allocOk : Bool) (el : α)
  | appendMany (allocOk : Bool) (els : List α) (nr_els : Int)

/-- The call is one the code can complete: the allocator delivers, and a bulk append
passes a count that is not negative and not larger than the caller's buffer. -/
def ArrayCall.served {α : Type} : ArrayCall α → Prop
  | .append allocOk _ => allocOk = true
  | .appendMany allocOk els nr_els => allocOk = true ∧ 0 ≤ nr_els ∧ nr_els ≤ els.length

instance {α : Type} (c : ArrayCall α) : Decidable c.served := by
  cases c <;> unfold ArrayCall.served <;> infer_instance

/-- The elements a call appends. -/
def ArrayCall.elements {α : Type} : ArrayCall α → List α
  | .append _ el => [el]
  | .appendMany _ els nr_els => els.take nr_els.toNat

/-- Perform one call on an array of elements of `el_size` bytes. -/
def ArrayCall.run {α : Type} (el_size : Int) (c : ArrayCall α) (a : SArray α) :
    Except Fault (SArray α) :=
  match c with
  | .append allocOk el => sensors_add_array_el allocOk el_size el a
  | .appendMany allocOk els nr_els => sensors_add_array_els allocOk el_size els nr_els a

/-- Perform the calls in order, stopping at the first one that does not return. -/
def runCalls {α : Type} (el_size : Int) :
    List (ArrayCall α) → SArray α → Except Fault (SArray α)
  | [], a => .ok a
  | c :: cs, a =>
    match c.run el_size a with
    | .error f => .error f
    | .ok b => runCalls el_size cs b

/-- Every element appended by a sequence of calls, in call order. -/
def appended {α : Type} (calls : List (ArrayCall α)) : List α :=
  (calls.map ArrayCall.elements).flatten

/-- The sizes of a run stay in `int` range: the element size is positive, and room for
twice the `total` number of elements the array is to hold, plus one increment, has a
byte count that an `int` holds.  No expression of the functions is larger. -/
def SizesFit (el_size total : Int) : Prop :=
  0 < el_size ∧ (2 * total + A_BUNCH) * el_size ≤ INT_MAX

instance (el_size total : Int) : Decidable (SizesFit el_size total) := by
  unfold SizesFit
  infer_instance

/-- The cells `0 .. num_el - 1`. -/
def SArray.stored {α : Type} (a : SArray α) : List (Option α) :=
  a.list.take a.num_el.toNat

/-- The shape every array built by the functions has: a block of `max_el` cells, a
number of elements between 0 and `max_el`, and a capacity that an `int` holds. -/
def SArray.WellFormed {α : Type} (a : SArray α) : Prop :=
  (a.list.length : Int) = a.max_el ∧ 0 ≤ a.num_el ∧ a.num_el ≤ a.max_el ∧
  a.max_el ≤ INT_MAX

instance {α : Type} (a : SArray α) : Decidable a.WellFormed := by
  unfold SArray.WellFormed
  infer_instance


/-- One call of the interface of `general.c`: `sensors_malloc_array`,
`sensors_free_array`, or one of the two append functions. -/
inductive ArrayOp (α : Type) where
  | create (allocOk : Bool)
  | destroy
  | call (c : ArrayCall α)

/-- The call is one the code can complete. -/
def ArrayOp.served {α : Type} : ArrayOp α → Prop
  | .create allocOk => allocOk = true
  | .destroy => True
  | .call c => c.served

instance {α : Type} (op : ArrayOp α) : Decidable op.served := by
  cases op <;> unfold ArrayOp.served <;> infer_instance

/-- Perform one call.  `sensors_malloc_array` only writes its three objects, so the
state it is called in does not matter. -/
def ArrayOp.run {α : Type} (el_size : Int) (op : ArrayOp α) (a : SArray α) :
    Except Fault (SArray α) :=
  match op with
  | .create allocOk => sensors_malloc_array allocOk el_size
  | .destroy => .ok (sensors_free_array a)
  | .call c => c.run el_size a

/-- The elements a call appends; none for a create or a destroy. -/
def ArrayOp.elements {α : Type} : ArrayOp α → List α
  | .create _ => []
  | .destroy => []
  | .call c => c.elements

/-- Perform the calls in order, stopping at the first one that does not return. -/
def runOps {α : Type} (el_size : Int) :
    List (ArrayOp α) → SArray α → Except Fault (SArray α)
  | [], a => .ok a
  | op :: ops, a =>
    match op.run el_size a with
    | .error f => .error f
    | .ok b => runOps el_size ops b

/-- Every element appended by a sequence of calls, in call order. -/
def appendedOps {α : Type} (ops : List (ArrayOp α)) : List α :=
  (ops.map ArrayOp.elements).flatten

/-! ## `src/i2c-proc.c`

`LINUX_2_1` stands for `LINUX_VERSION_CODE > KERNEL_VERSION(2,1,0)` and `DEBUG` for
`#ifdef DEBUG`: the two compile-time switches of the file.  `printk` output is not
modelled. -/

/-- The constant `ENOENT` of the kernel's `errno.h`. -/
def ENOENT : Int := 2

/-- The constant `ENOMEM` of the kernel's `errno.h`. -/
def ENOMEM : Int := 12

/-! ### The adapter table -/

/-- The address of a `struct i2c_adapter`, the identity of an adapter; never `NULL`. -/
abbrev AdapterPtr := Nat

/-- What the module reads through an adapter pointer: `name`, `algo->name`, and the
values of the macros `i2c_is_smbus_adapter` and `i2c_is_isa_adapter` (declared in
`smbus.h` and `isa.h`, which are not part of the sources). -/
structure i2c_adapter where
  name : List Char
  algo_name : List Char
  is_smbus : Bool
  is_isa : Bool

/-- The part of a `struct i2c_client` the module reads: `client->adapter`. -/
structure i2c_client where
  adapter : AdapterPtr
  deriving DecidableEq, Repr

/-- The array `i2cproc_adapters[I2C_ADAP_MAX]`, `none` being `NULL`.  `I2C_ADAP_MAX` is
declared in `i2c.h`, which is not part of the sources: it is the length of the list,
which no function changes. -/
abbrev AdapterTable := List (Option AdapterPtr)

/-- The calls into the host an attach or detach notification makes. -/
inductive BusCall where
  | kmalloc
  | i2c_attach_client (adapter : AdapterPtr)
  | i2c_detach_client (adapter : AdapterPtr)
  | kfree
  deriving DecidableEq, Repr

/-- What a notification handler leaves: the value it returns, the table, and the host
calls it made, in order. -/
structure TableResult where
  ret : Int
  table : AdapterTable
  calls : List BusCall
  deriving DecidableEq, Repr

/-- The loop `for (i = 0; i < I2C_ADAP_MAX; i++) if (!i2cproc_adapters[i]) break;` of
`i2cproc_attach_adapter`, on the cells from index `i` on: the value of `i` after it. -/
def attach_scan : AdapterTable → Nat → Nat
  | [], i => i
  | none :: _, i => i
  | some _ :: rest, i => attach_scan rest (i + 1)

/-- The function `i2cproc_attach_adapter`.  `kmalloc_ok` tells whether `kmalloc` returns
a block, `attach_res` is the value `i2c_attach_client` returns. -/
def i2cproc_attach_adapter (DEBUG : Bool) (mem : AdapterPtr → i2c_adapter)
    (kmalloc_ok : Bool) (attach_res : Int) (adapter : AdapterPtr) (tab : AdapterTable) :
    TableResult :=
  if !DEBUG && (mem adapter).is_isa then ⟨0, tab, []⟩
  else
    let i := attach_scan tab 0
    if i = tab.length then ⟨-ENOMEM, tab, []⟩
    else if !kmalloc_ok then ⟨-ENOMEM, tab, [.kmalloc]⟩
    else if attach_res ≠ 0 then ⟨attach_res, tab, [.kmalloc, .i2c_attach_client adapter]⟩
    else ⟨0, tab.set i (some adapter), [.kmalloc, .i2c_attach_client adapter]⟩

/-- The loop of `i2cproc_detach_client` on the cells from index `i` on, followed by the
final `return -ENOENT`; `tab` is the whole table. -/
def detach_scan (detach_res : Int) (adapter : AdapterPtr) (tab : AdapterTable) :
    AdapterTable → Nat → TableResult
  | [], _ => ⟨-ENOENT, tab, []⟩
  | cell :: rest, i =>
    if cell = some adapter then
      if detach_res ≠ 0 then ⟨detach_res, tab, [.i2c_detach_client adapter]⟩
      else ⟨0, tab.set i none, [.i2c_detach_client adapter, .kfree]⟩
    else detach_scan detach_res adapter tab rest (i + 1)

/-- The function `i2cproc_detach_client`; `detach_res` is the value `i2c_detach_client`
returns.  `i2c_is_isa_client (client)` is `i2c_is_isa_adapter (client->adapter)`. -/
def i2cproc_detach_client (DEBUG : Bool) (mem : AdapterPtr → i2c_adapter)
    (detach_res : Int) (client : i2c_client) (tab : AdapterTable) : TableResult :=
  if !DEBUG && (mem client.adapter).is_isa then ⟨0, tab, []⟩
  else detach_scan detach_res client.adapter tab tab 0

/-- A notification of the i2c core, with what the host answers to the calls the handler
makes. -/
inductive Notification where
  | attach (adapter : AdapterPtr) (kmalloc_ok : Bool) (attach_res : Int)
  | detach (client : i2c_client) (detach_res : Int)
  deriving DecidableEq, Repr

/-- Handle one notification. -/
def Notification.run (DEBUG : Bool) (mem : AdapterPtr → i2c_adapter) :
    Notification → AdapterTable → AdapterTable
  | .attach adapter kmalloc_ok attach_res, tab =>
    (i2cproc_attach_adapter DEBUG mem kmalloc_ok attach_res adapter tab).table
  | .detach client detach_res, tab =>
    (i2cproc_detach_client DEBUG mem detach_res client tab).table

/-- Handle the notifications in order. -/
def runNotifications (DEBUG : Bool) (mem : AdapterPtr → i2c_adapter) :
    List Notification → AdapterTable → AdapterTable
  | [], tab => tab
  | n :: ns, tab => runNotifications DEBUG mem ns (n.run DEBUG mem tab)

/-- The table of a module that was just loaded: `I2C_ADAP_MAX` cells, all `NULL`. -/
def emptyTable (I2C_ADAP_MAX : Nat) : AdapterTable := List.replicate I2C_ADAP_MAX none

/-- The adapters of the occupied slots, in slot order. -/
def occupied (tab : AdapterTable) : List AdapterPtr := tab.filterMap id

/-- No two occupied slots hold the same adapter. -/
def NoDuplicate (tab : AdapterTable) : Prop := (occupied tab).Nodup

instance (tab : AdapterTable) : Decidable (NoDuplicate tab) := by
  unfold NoDuplicate
  infer_instance

/-- The notification is a detach, or an attach of an adapter that occupies no slot. -/
def Notification.absent (n : Notification) (tab : AdapterTable) : Prop :=
  match n with
  | .attach adapter _ _ => some adapter ∉ tab
  | .detach _ _ => True

instance (n : Notification) (tab : AdapterTable) : Decidable (n.absent tab) := by
  cases n <;> unfold Notification.absent <;> infer_instance

/-- No attach notification of the sequence is for an adapter that occupies a slot at
the time it arrives. -/
def AttachesAbsent (DEBUG : Bool) (mem : AdapterPtr → i2c_adapter) :
    List Notification → AdapterTable → Prop
  | [], _ => True
  | n :: ns, tab => n.absent tab ∧ AttachesAbsent DEBUG mem ns (n.run DEBUG mem tab)

instance AttachesAbsent.decidable (DEBUG : Bool) (mem : AdapterPtr → i2c_adapter) :
    ∀ (ns : List Notification) (tab : AdapterTable),
      Decidable (AttachesAbsent DEBUG mem ns tab)
  | [], _ => isTrue trivial
  | n :: ns, tab =>
    @instDecidableAnd _ _ inferInstance
      (AttachesAbsent.decidable DEBUG mem ns (n.run DEBUG mem tab))

/-! ### The read callback -/

/-- The conversion `%-32s`: the string, then blanks up to 32 columns. -/
def pad32 (s : List Char) : List Char := s ++ List.replicate (32 - s.length) ' '

/-- The second `%s` argument of the `sprintf` call: the bus kind. -/
def bus_kind (DEBUG : Bool) (a : i2c_adapter) : List Char :=
  if a.is_smbus then "smbus".toList
  else if DEBUG && a.is_isa then "isa".toList
  else "i2c".toList

/-- The text of `"/dev/i2c-%d\t%s\t%-32s\t%-32s\n"` for slot `i`. -/
def format_line (DEBUG : Bool) (i : Nat) (a : i2c_adapter) : List Char :=
  "/dev/i2c-".toList ++ Nat.toDigits 10 i ++ ['\t'] ++ bus_kind DEBUG a ++ ['\t']
    ++ pad32 a.name ++ ['\t'] ++ pad32 a.algo_name ++ ['\n']

/-- The call `sprintf (buf, ...)`: the text and a terminating NUL are written from the
first byte of `buf` on; the value is the memory from `buf` on afterwards (longer than `buf`
when the write ran past its end) and the number of characters of the text. -/
def sprintf (buf : List Char) (text : List Char) : List Char × Int :=
  (text ++ ['\x00'] ++ buf.drop (text.length + 1), text.length)

/-- What `read_bus_i2c` leaves: the value it returns and the memory from `buf` on. -/
structure ReadResult where
  ret : Int
  buf : List Char
  deriving DecidableEq, Repr

/-- The loop of `read_bus_i2c` on the cells from index `i` on. -/
def read_bus_i2c_loop (DEBUG : Bool) (mem : AdapterPtr → i2c_adapter) :
    AdapterTable → Nat → List Char → Int → ReadResult
  | [], _, buf, len => ⟨len, buf⟩
  | none :: rest, i, buf, len => read_bus_i2c_loop DEBUG mem rest (i + 1) buf len
  | some a :: rest, i, buf, len =>
    read_bus_i2c_loop DEBUG mem rest (i + 1)
      (sprintf buf (format_line DEBUG i (mem a))).1
      (len + (sprintf buf (format_line DEBUG i (mem a))).2)

/-- The function `read_bus_i2c`; `buf` is the caller's buffer and `len` the length the
caller asks for.  The parameters `start`, `offset`, `eof` and `private` are not used by the
function. -/
def read_bus_i2c (DEBUG : Bool) (mem : AdapterPtr → i2c_adapter) (tab : AdapterTable)
    (buf : List Char) (len : Int) : ReadResult :=
  let len : Int := 0
  read_bus_i2c_loop DEBUG mem tab 0 buf len

/-- The lines of the occupied slots, in ascending slot order, from slot `i` on: what the
specification says the read callback produces. -/
def render (DEBUG : Bool) (mem : AdapterPtr → i2c_adapter) : AdapterTable → Nat → List Char
  | [], _ => []
  | none :: rest, i => render DEBUG mem rest (i + 1)
  | some a :: rest, i => format_line DEBUG i (mem a) ++ render DEBUG mem rest (i + 1)

/-- The C string at the start of a buffer: the characters before the first NUL. -/
def c_string (buf : List Char) : List Char := buf.takeWhile (fun c => c ≠ '\x00')

/-! ### Load and unload -/

/-- The host entry points `i2cproc_init` and `i2cproc_cleanup` call, and the kernel
variable `proc_bus` that `i2cproc_init` reads.  The 2.0 code registers two entries with
`proc_register_dynamic` and removes them with `proc_unregister`: `/proc/bus`
(`proc_bus_dir`) and `/proc/bus/i2c` (`proc_bus_i2c_dir`). -/
inductive HostOp where
  | proc_bus
  | create_proc_entry
  | proc_register_bus
  | proc_register_i2c
  | i2c_add_driver
  | i2c_del_driver
  | remove_proc_entry
  | proc_unregister_i2c
  | proc_unregister_bus
  deriving DecidableEq, Repr

/-- The module's variable `i2cproc_initialized`, and what the host holds for the
module: the directory `/proc/bus` (registered by the 2.0 code only), the entry
`/proc/bus/i2c`, the driver registration.  A host call that succeeds acquires or
releases its resource; one that fails changes nothing. -/
structure ModuleState where
  i2cproc_initialized : Int
  bus_dir : Bool
  i2c_entry : Bool
  driver : Bool
  deriving DecidableEq, Repr

/-- What `i2cproc_init` or `i2cproc_cleanup` leaves: the value returned, the state, and
the host calls made, in order. -/
structure ModuleResult where
  ret : Int
  state : ModuleState
  trace : List HostOp
  deriving DecidableEq, Repr

/-- The state of a module that is not loaded. -/
def unloaded : ModuleState :=
  { i2cproc_initialized := 0, bus_dir := false, i2c_entry := false, driver := false }

/-- The 2.0 code of `i2cproc_cleanup` from `proc_unregister (&proc_root, ...)` on. -/
def i2cproc_cleanup_bus (host : HostOp → Int) (s : ModuleState) (tr : List HostOp) :
    ModuleResult :=
  if host .proc_unregister_bus ≠ 0 then
    ⟨host .proc_unregister_bus, s, tr ++ [.proc_unregister_bus]⟩
  else
    ⟨0, { s with bus_dir := false, i2cproc_initialized := s.i2cproc_initialized - 1 },
      tr ++ [.proc_unregister_bus]⟩

/-- The code of `i2cproc_cleanup` from `if (i2cproc_initialized >= 1)` on. -/
def i2cproc_cleanup_proc (LINUX_2_1 : Bool) (host : HostOp → Int) (s : ModuleState)
    (tr : List HostOp) : ModuleResult :=
  if s.i2cproc_initialized ≥ 1 then
    if LINUX_2_1 then
      if host .remove_proc_entry ≠ 0 then
        ⟨host .remove_proc_entry, s, tr ++ [.remove_proc_entry]⟩
      else
        ⟨0, { s with i2c_entry := false, i2cproc_initialized := s.i2cproc_initialized - 2 },
          tr ++ [.remove_proc_entry]⟩
    else if s.i2cproc_initialized ≥ 2 then
      if host .proc_unregister_i2c ≠ 0 then
        ⟨host .proc_unregister_i2c, s, tr ++ [.proc_unregister_i2c]⟩
      else
        i2cproc_cleanup_bus host
          { s with i2c_entry := false, i2cproc_initialized := s.i2cproc_initialized - 1 }
          (tr ++ [.proc_unregister_i2c])
    else i2cproc_cleanup_bus host s tr
  else ⟨0, s, tr⟩

/-- The function `i2cproc_cleanup`; `host op` is the value the host returns when `op`
is called. -/
def i2cproc_cleanup (LINUX_2_1 : Bool) (host : HostOp → Int) (s : ModuleState) :
    ModuleResult :=
  if s.i2cproc_initialized ≥ 3 then
    if host .i2c_del_driver ≠ 0 then ⟨host .i2c_del_driver, s, [.i2c_del_driver]⟩
    else
      i2cproc_cleanup_proc LINUX_2_1 host
        { s with driver := false, i2cproc_initialized := s.i2cproc_initialized - 1 }
        [.i2c_del_driver]
  else i2cproc_cleanup_proc LINUX_2_1 host s []

/-- The error exit of `i2cproc_init`: `i2cproc_cleanup (); return res;` after the host
calls `tr`.  The value `i2cproc_cleanup` returns is not looked at. -/
def i2cproc_init_fail (LINUX_2_1 : Bool) (host : HostOp → Int) (res : Int)
    (s : ModuleState) (tr : List HostOp) : ModuleResult :=
  ⟨res, (i2cproc_cleanup LINUX_2_1 host s).state,
    tr ++ (i2cproc_cleanup LINUX_2_1 host s).trace⟩

/-- The code of `i2cproc_init` from `i2c_add_driver` on, common to both variants. -/
def i2cproc_init_driver (LINUX_2_1 : Bool) (host : HostOp → Int) (s : ModuleState)
    (tr : List HostOp) : ModuleResult :=
  if host .i2c_add_driver ≠ 0 then
    i2cproc_init_fail LINUX_2_1 host (host .i2c_add_driver) s (tr ++ [.i2c_add_driver])
  else
    ⟨0, { s with driver := true, i2cproc_initialized := s.i2cproc_initialized + 1 },
      tr ++ [.i2c_add_driver]⟩

/-- The function `i2cproc_init`; `host op` is the value the host returns when `op` is
called (a pointer for `proc_bus` and `create_proc_entry`, 0 being `NULL`). -/
def i2cproc_init (LINUX_2_1 : Bool) (host : HostOp → Int) (s0 : ModuleState) :
    ModuleResult :=
  let s : ModuleState := { s0 with i2cproc_initialized := 0 }
  if LINUX_2_1 then
    if host .proc_bus = 0 then i2cproc_init_fail LINUX_2_1 host (-ENOENT) s []
    else if host .create_proc_entry = 0 then
      i2cproc_init_fail LINUX_2_1 host (-ENOENT) s [.create_proc_entry]
    else
      i2cproc_init_driver LINUX_2_1 host
        { s with i2c_entry := true, i2cproc_initialized := s.i2cproc_initialized + 2 }
        [.create_proc_entry]
  else
    if host .proc_register_bus ≠ 0 then
      i2cproc_init_fail LINUX_2_1 host (host .proc_register_bus) s [.proc_register_bus]
    else
      let s1 : ModuleState :=
        { s with bus_dir := true, i2cproc_initialized := s.i2cproc_initialized + 1 }
      if host .proc_register_i2c ≠ 0 then
        i2cproc_init_fail LINUX_2_1 host (host .proc_register_i2c) s1
          [.proc_register_bus, .proc_register_i2c]
      else
        i2cproc_init_driver LINUX_2_1 host
          { s1 with i2c_entry := true, i2cproc_initialized := s1.i2cproc_initialized + 1 }
          [.proc_register_bus, .proc_register_i2c]

/-- A call of one of the module's entry points, with the host's answers during it. -/
inductive ModuleCall where
  | load (host : HostOp → Int)
  | unload (host : HostOp → Int)

/-- Perform one call: `init_module` is `i2cproc_init`, `cleanup_module` is
`i2cproc_cleanup`. -/
def ModuleCall.run (LINUX_2_1 : Bool) : ModuleCall → ModuleState → ModuleResult
  | .load host, s => i2cproc_init LINUX_2_1 host s
  | .unload host, s => i2cproc_cleanup LINUX_2_1 host s

/-- Perform the calls in order; the state after the last. -/
def runModule (LINUX_2_1 : Bool) : List ModuleCall → ModuleState → ModuleState
  | [], s => s
  | c :: cs, s => runModule LINUX_2_1 cs (c.run LINUX_2_1 s).state

/-- Whether the resource of acquisition stage 1, 2 or 3 is held.  The stages are the
directory, the entry and the driver registration.  The 2.1 code acquires the first
two as one resource, the entry `/proc/bus/i2c`, and counts 2 for it. -/
def stageHeld (LINUX_2_1 : Bool) (s : ModuleState) : Nat → Bool
  | 1 => if LINUX_2_1 then s.i2c_entry else s.bus_dir
  | 2 => s.i2c_entry
  | 3 => s.driver
  | _ => false

/-- Whether the host lets the acquisition of stage 1, 2 or 3 succeed. -/
def acquires (LINUX_2_1 : Bool) (host : HostOp → Int) : Nat → Bool
  | 1 => if LINUX_2_1 then host .proc_bus ≠ 0 else host .proc_register_bus = 0
  | 2 => if LINUX_2_1 then host .create_proc_entry ≠ 0 else host .proc_register_i2c = 0
  | 3 => host .i2c_add_driver = 0
  | _ => true

/-- The host call that releases the resource of a stage. -/
def releaseOp (LINUX_2_1 : Bool) : Nat → HostOp
  | 3 => .i2c_del_driver
  | 2 => if LINUX_2_1 then .remove_proc_entry else .proc_unregister_i2c
  | _ => if LINUX_2_1 then .remove_proc_entry else .proc_unregister_bus

/-- The host calls that release something. -/
def releaseOps : List HostOp :=
  [.i2c_del_driver, .remove_proc_entry, .proc_unregister_i2c, .proc_unregister_bus]

/-- The number of stages held. -/
def heldCount (LINUX_2_1 : Bool) (s : ModuleState) : Nat :=
  ([1, 2, 3].filter (stageHeld LINUX_2_1 s)).length

/-- The stage counter tells what is held: it is the number of stages held, and the
stages held are the first that many of the stages 1, 2, 3. -/
def CounterExact (LINUX_2_1 : Bool) (s : ModuleState) : Prop :=
  s.i2cproc_initialized = heldCount LINUX_2_1 s ∧
  ∀ k ∈ [1, 2, 3], (stageHeld LINUX_2_1 s k = true ↔ (k : Int) ≤ s.i2cproc_initialized)

instance (LINUX_2_1 : Bool) (s : ModuleState) : Decidable (CounterExact LINUX_2_1 s) := by
  unfold CounterExact
  infer_instance

/-- The call is an unload, or a load made while none of the stages 1, 2, 3 is held. -/
def ModuleCall.nothingHeld (LINUX_2_1 : Bool) (c : ModuleCall) (s : ModuleState) : Prop :=
  match c with
  | .load _ => ∀ k ∈ [1, 2, 3], stageHeld LINUX_2_1 s k = false
  | .unload _ => True

instance (LINUX_2_1 : Bool) (c : ModuleCall) (s : ModuleState) :
    Decidable (c.nothingHeld LINUX_2_1 s) := by
  cases c <;> unfold ModuleCall.nothingHeld <;> infer_instance

/-- Every load of the sequence is called while no stage is held. -/
def LoadsWhenNothingHeld (LINUX_2_1 : Bool) : List ModuleCall → ModuleState → Prop
  | [], _ => True
  | c :: cs, s =>
    c.nothingHeld LINUX_2_1 s ∧ LoadsWhenNothingHeld LINUX_2_1 cs (c.run LINUX_2_1 s).state

instance LoadsWhenNothingHeld.decidable (LINUX_2_1 : Bool) :
    ∀ (calls : List ModuleCall) (s : ModuleState),
      Decidable (LoadsWhenNothingHeld LINUX_2_1 calls s)
  | [], _ => isTrue trivial
  | c :: cs, s =>
    @instDecidableAnd _ _ inferInstance
      (LoadsWhenNothingHeld.decidable LINUX_2_1 cs (c.run LINUX_2_1 s).state)

/-- The releases `i2cproc_cleanup` has to make for stage counter `c`, highest stage
first; a call that releases two stages is made once. -/
def releasePlan (LINUX_2_1 : Bool) (c : Int) : List HostOp :=
  (([3, 2, 1].filter (fun k : Nat => (k : Int) ≤ c)).map (releaseOp LINUX_2_1)).dedup

/-- The calls of a plan that are made when the plan is given up at the first call
that fails. -/
def untilFailure (host : HostOp → Int) : List HostOp → List HostOp
  | [] => []
  | op :: rest => if host op ≠ 0 then [op] else op :: untilFailure host rest

/-- The values the stage counter takes in the code: 0, 2 and 3, and 1 in the 2.0 code
only. -/
def StageCounterRange (LINUX_2_1 : Bool) (c : Int) : Prop :=
  c = 0 ∨ (LINUX_2_1 = false ∧ c = 1) ∨ c = 2 ∨ c = 3

instance (LINUX_2_1 : Bool) (c : Int) : Decidable (StageCounterRange LINUX_2_1 c) := by
  unfold StageCounterRange
  infer_instance

/-- The stage counter does not count a stage that is not held: it has one of the
values of the code, and every stage up to it is held. -/
def HeldUpToCounter (LINUX_2_1 : Bool) (s : ModuleState) : Prop :=
  StageCounterRange LINUX_2_1 s.i2cproc_initialized ∧
  ∀ k ∈ ([1, 2, 3] : List Nat),
    (k : Int) ≤ s.i2cproc_initialized → stageHeld LINUX_2_1 s k = true

instance (LINUX_2_1 : Bool) (s : ModuleState) : Decidable (HeldUpToCounter LINUX_2_1 s) := by
  unfold HeldUpToCounter
  infer_instance

/-- The order in which the stages are released: the driver registration, the entry,
the directory. -/
def releaseOrder (LINUX_2_1 : Bool) : List HostOp :=
  [releaseOp LINUX_2_1 3, releaseOp LINUX_2_1 2, releaseOp LINUX_2_1 1]
/-! ## Theorems on `lib/general.c` -/

theorem realloc_cells_length {α : Type} (cells : List (Option α)) (n : Int) :
    (realloc_cells cells n).length = n.toNat := by
  simp [realloc_cells]
  omega

theorem realloc_cells_take {α : Type} (cells : List (Option α)) (n : Int) (k : Nat)
    (h1 : k ≤ cells.length) (h2 : k ≤ n.toNat) :
    (realloc_cells cells n).take k = cells.take k := by
  unfold realloc_cells
  rw [List.take_append_of_le_length (by simp; omega), List.take_take]
  congr 1
  omega

theorem memcpy_cells_ok {α : Type} {cells out : List (Option α)} {offset n : Int}
    {src : List α} (h : memcpy_cells cells offset src n = .ok out) :
    (0 ≤ n ∧ 0 ≤ offset ∧ n ≤ src.length ∧ offset + n ≤ cells.length) ∧
    out = cells.take offset.toNat ++ (src.take n.toNat).map some
          ++ cells.drop (offset.toNat + n.toNat) := by
  unfold memcpy_cells at h
  split at h
  · rename_i hc
    exact ⟨hc, (Except.ok.inj h).symm⟩
  · exact absurd h (by simp)

theorem memcpy_cells_some {α : Type} (cells : List (Option α)) (offset : Int)
    (src : List α) (n : Int) (h : 0 ≤ n ∧ 0 ≤ offset ∧ n ≤ src.length ∧ offset + n ≤ cells.length) :
    ∃ out, memcpy_cells cells offset src n = .ok out := by
  unfold memcpy_cells
  rw [if_pos h]
  exact ⟨_, rfl⟩

theorem memcpy_cells_length {α : Type} {cells out : List (Option α)} {offset n : Int}
    {src : List α} (h : memcpy_cells cells offset src n = .ok out) :
    out.length = cells.length := by
  obtain ⟨⟨h1, h2, h3, h4⟩, rfl⟩ := memcpy_cells_ok h
  simp
  omega

theorem memcpy_cells_take {α : Type} {cells out : List (Option α)} {offset n : Int}
    {src : List α} (h : memcpy_cells cells offset src n = .ok out) :
    out.take (offset + n).toNat = cells.take offset.toNat ++ (src.take n.toNat).map some := by
  obtain ⟨⟨h1, h2, h3, h4⟩, rfl⟩ := memcpy_cells_ok h
  have e : (offset + n).toNat
      = (cells.take offset.toNat ++ (src.take n.toNat).map some).length := by
    simp
    omega
  rw [e, List.take_left]


theorem tmod_A_BUNCH_bounds (x : Int) (h : 0 ≤ x) :
    0 ≤ x.tmod A_BUNCH ∧ x.tmod A_BUNCH < 16 := by
  rw [Int.tmod_eq_emod h (by decide)]
  unfold A_BUNCH
  omega

/-- After the growth step of either function the block has `max_el` cells, the old
cells below `num_el` are the same, and `num_el + n` fits. -/
theorem grow_step {α : Type} (a : SArray α) (new_max_el n : Int)
    (hwf : a.WellFormed) (hn : 0 ≤ n) (hfit : a.num_el + n ≤ new_max_el) :
    let b : SArray α := { a with list := realloc_cells a.list new_max_el,
                                 max_el := new_max_el }
    (b.list.length : Int) = b.max_el ∧ b.num_el + n ≤ b.max_el ∧ b.stored = a.stored := by
  obtain ⟨h1, h2, h3⟩ := hwf
  refine ⟨?_, hfit, ?_⟩
  · simp only [realloc_cells_length]
    omega
  · simp only [SArray.stored]
    apply realloc_cells_take <;> omega

theorem write_step {α : Type} (b : SArray α) (src : List α) (n : Int)
    (cells : List (Option α))
    (hlen : (b.list.length : Int) = b.max_el) (hmax : b.max_el ≤ INT_MAX)
    (h : memcpy_cells b.list b.num_el src n = .ok cells) :
    let c : SArray α := { b with list := cells, num_el := b.num_el + n }
    c.WellFormed ∧ c.stored = b.stored ++ (src.take n.toNat).map some := by
  obtain ⟨⟨h1, h2, h3, h4⟩, _⟩ := memcpy_cells_ok h
  refine ⟨⟨?_, ?_, ?_, hmax⟩, ?_⟩
  · simp only [memcpy_cells_length h]; exact hlen
  · simp only; omega
  · simp only; omega
  · simp only [SArray.stored]
    exact memcpy_cells_take h

/-- A value between 0 and a budget whose byte count an `int` holds is an `int`, and so
is its own byte count. -/
theorem fitsInt_of_budget (x B el_size : Int) (h0 : 0 ≤ x) (hx : x ≤ B)
    (hel : 0 < el_size) (hB : B * el_size ≤ INT_MAX) :
    fitsInt x ∧ fitsInt (x * el_size) ∧ fitsInt (el_size * x) := by
  have h1 : x * el_size ≤ B * el_size := Int.mul_le_mul_of_nonneg_right hx (le_of_lt hel)
  have h2 : x ≤ x * el_size := le_mul_of_one_le_right h0 hel
  have h3 : 0 ≤ x * el_size := Int.mul_nonneg h0 (le_of_lt hel)
  have hm : INT_MIN ≤ 0 := by decide
  refine ⟨⟨by omega, by omega⟩, ⟨by omega, by omega⟩, ?_⟩
  rw [Int.mul_comm]
  exact ⟨by omega, by omega⟩

theorem SizesFit.mono {el_size t u : Int} (h : SizesFit el_size u) (htu : t ≤ u) :
    SizesFit el_size t := by
  obtain ⟨hel, hB⟩ := h
  refine ⟨hel, le_trans (Int.mul_le_mul_of_nonneg_right ?_ (le_of_lt hel)) hB⟩
  omega

theorem sensors_add_array_el_spec {α : Type} (allocOk : Bool) (el_size : Int) (el : α)
    (a b : SArray α)
    (hwf : a.WellFormed) (h : sensors_add_array_el allocOk el_size el a = .ok b) :
    b.WellFormed ∧ b.num_el = a.num_el + 1 ∧ b.stored = a.stored ++ [some el] ∧
    b.max_el = (if a.num_el + 1 > a.max_el then a.max_el + 16 else a.max_el) ∧
    (0 < el_size ∧ fitsInt b.num_el ∧ (a.num_el + 1 > a.max_el → fitsInt b.max_el)) := by
  unfold sensors_add_array_el at h
  by_cases hel : 0 < el_size
  swap
  · simp [hel] at h
  by_cases hf1 : fitsInt (a.num_el + 1)
  swap
  · simp [hel, hf1] at h
  simp only [hel, hf1, not_true_eq_false, if_false] at h
  by_cases hg : a.num_el + 1 > a.max_el
  · simp only [hg, if_true] at h
    by_cases hf2 : fitsInt (a.max_el + A_BUNCH) ∧ fitsInt ((a.max_el + A_BUNCH) * el_size)
    swap
    · simp [hf2] at h
    simp only [hf2.1, hf2.2, and_self, not_true_eq_false, if_false] at h
    cases allocOk
    · simp [sensors_fatal_error] at h
    · simp only [if_true] at h
      obtain ⟨g1, g2, g3⟩ := grow_step a (a.max_el + A_BUNCH) 1 hwf (by decide)
        (by have := hwf.2.2; unfold A_BUNCH; omega)
      split at h
      · exact absurd h (by simp)
      · split at h
        · exact absurd h (by simp)
        · rename_i cells hm
          have w := write_step _ [el] 1 cells g1 hf2.1.2 hm
          cases Except.ok.inj h
          refine ⟨w.1, rfl, ?_, ?_, hel, hf1, fun _ => hf2.1⟩
          · rw [w.2, g3]; rfl
          · simp [hg, A_BUNCH]
  · simp only [hg, if_false] at h
    split at h
    · exact absurd h (by simp)
    · split at h
      · exact absurd h (by simp)
      · rename_i cells hm
        have w := write_step a [el] 1 cells hwf.1 hwf.2.2.2 hm
        cases Except.ok.inj h
        refine ⟨w.1, rfl, ?_, ?_, hel, hf1, fun hh => absurd hh hg⟩
        · rw [w.2]; rfl
        · simp [hg]

theorem sensors_add_array_els_spec {α : Type} (allocOk : Bool) (el_size : Int)
    (els : List α) (nr_els : Int) (a b : SArray α)
    (hwf : a.WellFormed) (h : sensors_add_array_els allocOk el_size els nr_els a = .ok b) :
    b.WellFormed ∧ b.num_el = a.num_el + nr_els ∧
    b.stored = a.stored ++ (els.take nr_els.toNat).map some ∧
    (0 ≤ nr_els ∧ nr_els ≤ els.length) ∧
    b.max_el = (if a.num_el + nr_els > a.max_el
      then (a.max_el + nr_els + 16) - (a.max_el + nr_els + 16).tmod 16 else a.max_el) ∧
    (0 < el_size ∧ fitsInt b.num_el ∧
      (a.num_el + nr_els > a.max_el → fitsInt (a.max_el + nr_els + 16))) := by
  unfold sensors_add_array_els at h
  by_cases hel : 0 < el_size
  swap
  · simp [hel] at h
  by_cases hf1 : fitsInt (a.num_el + nr_els)
  swap
  · simp [hel, hf1] at h
  simp only [hel, hf1, not_true_eq_false, if_false] at h
  by_cases hg : a.num_el + nr_els > a.max_el
  · simp only [hg, if_true] at h
    by_cases hf2 : fitsInt (a.max_el + nr_els) ∧ fitsInt (a.max_el + nr_els + A_BUNCH)
    swap
    · simp [hf2] at h
    simp only [hf2.1, hf2.2, and_self, not_true_eq_false, if_false] at h
    by_cases hf3 : fitsInt ((a.max_el + nr_els + A_BUNCH
        - (a.max_el + nr_els + A_BUNCH).tmod A_BUNCH) * el_size)
    swap
    · simp [hf3] at h
    simp only [hf3, not_true_eq_false, if_false] at h
    cases allocOk
    · simp [sensors_fatal_error] at h
    · simp only [if_true] at h
      split at h
      · exact absurd h (by simp)
      · split at h
        · exact absurd h (by simp)
        · rename_i cells hm
          have hn : 0 ≤ nr_els := (memcpy_cells_ok hm).1.1
          have hb := tmod_A_BUNCH_bounds (a.max_el + nr_els + A_BUNCH)
            (by have := hwf.2.1; have := hwf.2.2; unfold A_BUNCH; omega)
          obtain ⟨g1, g2, g3⟩ := grow_step a
            (a.max_el + nr_els + A_BUNCH - (a.max_el + nr_els + A_BUNCH).tmod A_BUNCH)
            nr_els hwf hn (by have := hwf.2.2; unfold A_BUNCH at hb ⊢; omega)
          have hmax : a.max_el + nr_els + A_BUNCH
              - (a.max_el + nr_els + A_BUNCH).tmod A_BUNCH ≤ INT_MAX := by
            have := hf2.2.2
            unfold A_BUNCH at hb this ⊢
            omega
          have w := write_step _ els nr_els cells g1 hmax hm
          cases Except.ok.inj h
          refine ⟨w.1, rfl, ?_, ⟨hn, (memcpy_cells_ok hm).1.2.2.1⟩, ?_, hel, hf1,
            fun _ => hf2.2⟩
          · rw [w.2, g3]
          · simp [hg, A_BUNCH]
  · simp only [hg, if_false] at h
    split at h
    · exact absurd h (by simp)
    · split at h
      · exact absurd h (by simp)
      · rename_i cells hm
        have w := write_step a els nr_els cells hwf.1 hwf.2.2.2 hm
        cases Except.ok.inj h
        refine ⟨w.1, rfl, ?_, ⟨(memcpy_cells_ok hm).1.1, (memcpy_cells_ok hm).1.2.2.1⟩, ?_,
          hel, hf1, fun hh => absurd hh hg⟩
        · rw [w.2]
        · simp [hg]

theorem sensors_add_array_el_returns {α : Type} (el_size : Int) (el : α) (a : SArray α)
    (hwf : a.WellFormed) (hfit : SizesFit el_size (a.num_el + 1)) :
    ∃ b, sensors_add_array_el true el_size el a = .ok b := by
  obtain ⟨h1, h2, h3⟩ := hwf
  obtain ⟨hel, hB⟩ := hfit
  unfold A_BUNCH at hB
  have f1 := fitsInt_of_budget (a.num_el + 1) _ el_size (by omega) (by omega) hel hB
  have f2 := fitsInt_of_budget a.num_el _ el_size h2 (by omega) hel hB
  unfold sensors_add_array_el
  simp only [hel, f1.1, not_true_eq_false, if_false]
  by_cases hg : a.num_el + 1 > a.max_el
  · have f3 := fitsInt_of_budget (a.max_el + 16) _ el_size (by omega) (by omega) hel hB
    simp only [hg, if_true, A_BUNCH, f3.1, f3.2.1, and_self, not_true_eq_false, if_false,
      f2.2.1]
    obtain ⟨cells, hc⟩ := memcpy_cells_some (realloc_cells a.list (a.max_el + 16))
      a.num_el [el] 1 (by
        refine ⟨by decide, h2, by simp, ?_⟩
        rw [realloc_cells_length]; omega)
    simp only [hc]
    exact ⟨_, rfl⟩
  · simp only [hg, if_false, f2.2.1, not_true_eq_false]
    obtain ⟨cells, hc⟩ := memcpy_cells_some a.list a.num_el [el] 1 (by
        refine ⟨by decide, h2, by simp, ?_⟩
        omega)
    simp only [hc]
    exact ⟨_, rfl⟩

theorem sensors_add_array_els_returns {α : Type} (el_size : Int) (els : List α)
    (nr_els : Int) (a : SArray α) (hwf : a.WellFormed) (hn : 0 ≤ nr_els)
    (hsrc : nr_els ≤ els.length) (hfit : SizesFit el_size (a.num_el + nr_els)) :
    ∃ b, sensors_add_array_els true el_size els nr_els a = .ok b := by
  obtain ⟨h1, h2, h3⟩ := hwf
  obtain ⟨hel, hB⟩ := hfit
  unfold A_BUNCH at hB
  have f1 := fitsInt_of_budget (a.num_el + nr_els) _ el_size (by omega) (by omega) hel hB
  have f2 := fitsInt_of_budget a.num_el _ el_size h2 (by omega) hel hB
  have f4 := fitsInt_of_budget nr_els _ el_size hn (by omega) hel hB
  unfold sensors_add_array_els
  simp only [hel, f1.1, not_true_eq_false, if_false]
  by_cases hg : a.num_el + nr_els > a.max_el
  · have hb := tmod_A_BUNCH_bounds (a.max_el + nr_els + A_BUNCH)
      (by unfold A_BUNCH; omega)
    unfold A_BUNCH at hb
    have f3 := fitsInt_of_budget (a.max_el + nr_els) _ el_size (by omega) (by omega) hel hB
    have f5 := fitsInt_of_budget (a.max_el + nr_els + 16) _ el_size (by omega) (by omega)
      hel hB
    have f6 := fitsInt_of_budget
      (a.max_el + nr_els + 16 - (a.max_el + nr_els + 16).tmod 16) _ el_size
      (by omega) (by omega) hel hB
    simp only [hg, if_true, A_BUNCH, f3.1, f5.1, f6.2.1, and_self, not_true_eq_false,
      if_false, f2.2.1, f4.2.2]
    obtain ⟨cells, hc⟩ := memcpy_cells_some (realloc_cells a.list
      (a.max_el + nr_els + 16 - (a.max_el + nr_els + 16).tmod 16))
      a.num_el els nr_els (by
        refine ⟨hn, h2, hsrc, ?_⟩
        rw [realloc_cells_length]; omega)
    simp only [hc]
    exact ⟨_, rfl⟩
  · simp only [hg, if_false, f2.2.1, f4.2.2, and_self, not_true_eq_false]
    obtain ⟨cells, hc⟩ := memcpy_cells_some a.list a.num_el els nr_els (by
        refine ⟨hn, h2, hsrc, ?_⟩
        omega)
    simp only [hc]
    exact ⟨_, rfl⟩

theorem ArrayCall.run_spec {α : Type} (el_size : Int) (c : ArrayCall α) (a b : SArray α)
    (hwf : a.WellFormed) (h : c.run el_size a = .ok b) :
    b.WellFormed ∧ b.num_el = a.num_el + c.elements.length ∧
    b.stored = a.stored ++ c.elements.map some := by
  cases c with
  | append allocOk el =>
    obtain ⟨w, n, s, _⟩ := sensors_add_array_el_spec allocOk el_size el a b hwf h
    exact ⟨w, by simpa [ArrayCall.elements] using n, s⟩
  | appendMany allocOk els nr_els =>
    obtain ⟨w, n, s, ⟨k1, k3⟩, _⟩ :=
      sensors_add_array_els_spec allocOk el_size els nr_els a b hwf h
    refine ⟨w, ?_, s⟩
    simp only [ArrayCall.elements, List.length_take]
    omega

theorem ArrayCall.run_returns {α : Type} (el_size : Int) (c : ArrayCall α) (a : SArray α)
    (hwf : a.WellFormed) (hc : c.served)
    (hfit : SizesFit el_size (a.num_el + c.elements.length)) :
    ∃ b, c.run el_size a = .ok b := by
  cases c with
  | append allocOk el =>
    cases (show allocOk = true from hc)
    exact sensors_add_array_el_returns el_size el a hwf (by simpa [ArrayCall.elements] using hfit)
  | appendMany allocOk els nr_els =>
    obtain ⟨h1, h2, h3⟩ := (show allocOk = true ∧ 0 ≤ nr_els ∧ nr_els ≤ els.length from hc)
    cases h1
    refine sensors_add_array_els_returns el_size els nr_els a hwf h2 h3 (hfit.mono ?_)
    simp only [ArrayCall.elements, List.length_take]
    omega

theorem runCalls_spec {α : Type} (el_size : Int) (calls : List (ArrayCall α))
    (a b : SArray α) (hwf : a.WellFormed) (h : runCalls el_size calls a = .ok b) :
    b.WellFormed ∧ b.num_el = a.num_el + (appended calls).length ∧
    b.stored = a.stored ++ (appended calls).map some := by
  induction calls generalizing a with
  | nil =>
    cases Except.ok.inj h
    exact ⟨hwf, by simp [appended], by simp [appended]⟩
  | cons c cs ih =>
    unfold runCalls at h
    split at h
    · exact absurd h (by simp)
    · rename_i m hm
      obtain ⟨w1, n1, s1⟩ := ArrayCall.run_spec el_size c a m hwf hm
      obtain ⟨w2, n2, s2⟩ := ih m w1 h
      refine ⟨w2, ?_, ?_⟩
      · rw [n2, n1]; simp [appended]; omega
      · rw [s2, s1]; simp [appended]

theorem runCalls_returns {α : Type} (el_size : Int) (calls : List (ArrayCall α))
    (a : SArray α) (hwf : a.WellFormed) (hc : ∀ c ∈ calls, c.served)
    (hfit : SizesFit el_size (a.num_el + (appended calls).length)) :
    ∃ b, runCalls el_size calls a = .ok b := by
  induction calls generalizing a with
  | nil => exact ⟨a, rfl⟩
  | cons c cs ih =>
    have hlen : (appended (c :: cs)).length = c.elements.length + (appended cs).length := by
      simp [appended]
    rw [hlen] at hfit
    obtain ⟨m, hm⟩ := ArrayCall.run_returns el_size c a hwf (hc c (List.mem_cons_self _ _))
      (hfit.mono (by omega))
    obtain ⟨w, n, _⟩ := ArrayCall.run_spec el_size c a m hwf hm
    obtain ⟨b, hb⟩ := ih m w (fun d hd => hc d (List.mem_cons_of_mem _ hd))
      (hfit.mono (by rw [n]; omega))
    refine ⟨b, ?_⟩
    unfold runCalls
    simp only [hm, hb]

/-- When a run returns, so does the run of any initial part of it. -/
theorem runCalls_append_returns {α : Type} (el_size : Int) (l1 l2 : List (ArrayCall α))
    (a b : SArray α) (h : runCalls el_size (l1 ++ l2) a = .ok b) :
    ∃ m, runCalls el_size l1 a = .ok m := by
  induction l1 generalizing a with
  | nil => exact ⟨a, rfl⟩
  | cons c cs ih =>
    simp only [List.cons_append, runCalls] at h ⊢
    split at h
    · exact absurd h (by simp)
    · exact ih _ h

theorem sensors_malloc_array_spec {α : Type} (allocOk : Bool) (el_size : Int) (a : SArray α)
    (h : sensors_malloc_array allocOk el_size = .ok a) :
    a.WellFormed ∧ a.num_el = 0 ∧ a.max_el = 16 ∧ a.stored = [] ∧
    a = ⟨malloc_cells A_BUNCH, 0, A_BUNCH⟩ := by
  unfold sensors_malloc_array at h
  by_cases hel : 0 < el_size
  swap
  · simp [hel] at h
  by_cases hf : fitsInt (el_size * A_BUNCH)
  swap
  · simp [hel, hf] at h
  simp only [hel, hf, not_true_eq_false, if_false] at h
  cases allocOk
  · simp [sensors_fatal_error] at h
  · simp only [if_true] at h
    cases Except.ok.inj h
    refine ⟨⟨?_, ?_, ?_, ?_⟩, rfl, rfl, ?_, rfl⟩ <;>
      simp [malloc_cells, A_BUNCH, SArray.stored, INT_MAX]

theorem sensors_malloc_array_returns {α : Type} (el_size total : Int) (h0 : 0 ≤ total)
    (hfit : SizesFit el_size total) :
    (sensors_malloc_array true el_size : Except Fault (SArray α))
      = .ok ⟨malloc_cells A_BUNCH, 0, A_BUNCH⟩ := by
  obtain ⟨hel, hB⟩ := hfit
  unfold A_BUNCH at hB
  have f := fitsInt_of_budget 16 _ el_size (by decide) (by omega) hel hB
  simp only [sensors_malloc_array, hel, A_BUNCH, f.2.2, not_true_eq_false, if_false, if_true]

/-! ### Growth of the block -/

theorem round_down_A_BUNCH (x : Int) (h : 0 ≤ x) :
    x - x.tmod 16 = x / 16 * 16 := by
  rw [Int.tmod_eq_emod h (by decide)]
  omega

theorem appended_map_append {α : Type} (allocOk : Bool) (l : List α) :
    appended (l.map (ArrayCall.append allocOk)) = l := by
  induction l with
  | nil => rfl
  | cons x xs ih =>
    simp only [appended, List.map_cons, List.flatten_cons, ArrayCall.elements] at ih ⊢
    rw [ih]
    rfl

theorem ArrayOp.run_keeps_multiple {α : Type} (el_size : Int) (op : ArrayOp α)
    (a b : SArray α) (h : a.WellFormed ∧ A_BUNCH ∣ a.max_el)
    (hr : op.run el_size a = .ok b) :
    (b.WellFormed ∧ A_BUNCH ∣ b.max_el) ∧ b.num_el ≤ a.num_el + op.elements.length := by
  cases op with
  | create allocOk =>
    obtain ⟨w, n, m, _⟩ := sensors_malloc_array_spec allocOk el_size b hr
    refine ⟨⟨w, by rw [m]; decide⟩, ?_⟩
    have := h.1.2.1
    rw [n]
    simp only [ArrayOp.elements, List.length_nil]
    omega
  | destroy =>
    cases Except.ok.inj hr
    refine ⟨⟨by simp [sensors_free_array, SArray.WellFormed, INT_MAX],
      by simp [sensors_free_array]⟩,
      ?_⟩
    have := h.1.2.1
    simp only [sensors_free_array, ArrayOp.elements, List.length_nil]
    omega
  | call c =>
    obtain ⟨hwf, hd⟩ := h
    have hn := (ArrayCall.run_spec el_size c a b hwf hr).2.1
    refine ⟨?_, by simp only [ArrayOp.elements]; omega⟩
    cases c with
    | append allocOk el =>
      obtain ⟨w, _, _, m, _⟩ := sensors_add_array_el_spec allocOk el_size el a b hwf hr
      refine ⟨w, ?_⟩
      rw [m]
      unfold A_BUNCH at hd ⊢
      split <;> omega
    | appendMany allocOk els nr_els =>
      obtain ⟨w, _, _, ⟨hn, _⟩, m, _⟩ :=
        sensors_add_array_els_spec allocOk el_size els nr_els a b hwf hr
      refine ⟨w, ?_⟩
      rw [m]
      have hx : 0 ≤ a.max_el + nr_els + 16 := by
        have := hwf.2.1; have := hwf.2.2
        omega
      rw [round_down_A_BUNCH _ hx]
      unfold A_BUNCH at hd ⊢
      split <;> omega

theorem ArrayOp.run_completes {α : Type} (el_size : Int) (op : ArrayOp α) (a : SArray α)
    (hwf : a.WellFormed) (hs : op.served)
    (hfit : SizesFit el_size (a.num_el + op.elements.length)) :
    ∃ b, op.run el_size a = .ok b := by
  cases op with
  | create allocOk =>
    cases (show allocOk = true from hs)
    exact ⟨_, sensors_malloc_array_returns el_size _
      (by have := hwf.2.1; omega) hfit⟩
  | destroy => exact ⟨_, rfl⟩
  | call c => exact ArrayCall.run_returns el_size c a hwf hs hfit

theorem runOps_spec {α : Type} (el_size : Int) (ops : List (ArrayOp α)) (a b : SArray α)
    (h : a.WellFormed ∧ A_BUNCH ∣ a.max_el) (hr : runOps el_size ops a = .ok b) :
    b.WellFormed ∧ A_BUNCH ∣ b.max_el := by
  induction ops generalizing a with
  | nil =>
    cases Except.ok.inj hr
    exact h
  | cons op rest ih =>
    unfold runOps at hr
    split at hr
    · exact absurd hr (by simp)
    · rename_i m hm
      exact ih m (ArrayOp.run_keeps_multiple el_size op a m h hm).1 hr

theorem runOps_returns {α : Type} (el_size : Int) (ops : List (ArrayOp α)) (a : SArray α)
    (h : a.WellFormed ∧ A_BUNCH ∣ a.max_el) (hs : ∀ op ∈ ops, op.served)
    (hfit : SizesFit el_size (a.num_el + (appendedOps ops).length)) :
    ∃ b, runOps el_size ops a = .ok b := by
  induction ops generalizing a with
  | nil => exact ⟨a, rfl⟩
  | cons op rest ih =>
    have hlen : (appendedOps (op :: rest)).length
        = op.elements.length + (appendedOps rest).length := by
      simp [appendedOps]
    rw [hlen] at hfit
    obtain ⟨m, hm⟩ := ArrayOp.run_completes el_size op a h.1
      (hs op (List.mem_cons_self _ _)) (hfit.mono (by omega))
    obtain ⟨hm1, hm2⟩ := ArrayOp.run_keeps_multiple el_size op a m h hm
    obtain ⟨b, hb⟩ := ih m hm1 (fun o ho => hs o (List.mem_cons_of_mem _ ho))
      (hfit.mono (by omega))
    refine ⟨b, ?_⟩
    unfold runOps
    simp only [hm, hb]

/-- When a run returns, so does the run of any initial part of it. -/
theorem runOps_append_returns {α : Type} (el_size : Int) (l1 l2 : List (ArrayOp α))
    (a b : SArray α) (h : runOps el_size (l1 ++ l2) a = .ok b) :
    ∃ m, runOps el_size l1 a = .ok m := by
  induction l1 generalizing a with
  | nil => exact ⟨a, rfl⟩
  | cons c cs ih =>
    simp only [List.cons_append, runOps] at h ⊢
    split at h
    · exact absurd h (by simp)
    · exact ih _ h

/-! ### Claims on the growable array -/

/-- C1: for every sequence of `sensors_add_array_el` and `sensors_add_array_els` calls on
an array freshly created by `sensors_malloc_array`, the state after each call (after
the first `k` calls, for every `k`) has `num_el ≤ max_el ≤ INT_MAX`; and each of the calls does
return when the allocator delivers, every bulk count is between 0 and the size of the
caller's buffer, and the sizes stay in `int` range (`SizesFit`, for the number of
elements appended in all).  A call in which an `int` expression overflows has no
defined result. -/
theorem length_le_capacity_after_each_call {α : Type} (allocOk : Bool) (el_size : Int)
    (a0 : SArray α) (calls : List (ArrayCall α))
    (h0 : sensors_malloc_array allocOk el_size = .ok a0) :
    (∀ k b, runCalls el_size (calls.take k) a0 = .ok b →
      b.num_el ≤ b.max_el ∧ b.max_el ≤ INT_MAX) ∧
    ((∀ c ∈ calls, c.served) → SizesFit el_size (appended calls).length →
      ∀ k, ∃ b, runCalls el_size (calls.take k) a0 = .ok b) := by
  obtain ⟨hwf, hn, _⟩ := sensors_malloc_array_spec allocOk el_size a0 h0
  refine ⟨fun k b hb => (runCalls_spec el_size _ a0 b hwf hb).1.2.2, fun hs hfit k => ?_⟩
  obtain ⟨b, hb⟩ := runCalls_returns el_size calls a0 hwf hs (by rw [hn]; simpa using hfit)
  rw [← List.take_append_drop k calls] at hb
  exact runCalls_append_returns el_size _ _ a0 b hb

/-- C1 at a concrete input: elements of 4 bytes; 17 elements in bulk (the storage grows
from 16 to 48), then a single element, on a fresh array. -/
theorem length_le_capacity_after_each_call_witness :
    ∃ b, runCalls 4 [ArrayCall.appendMany true (List.range 20) 17, ArrayCall.append true 5]
          { list := malloc_cells A_BUNCH, num_el := 0, max_el := A_BUNCH } = .ok b ∧
      b.num_el ≤ b.max_el := by
  have h := length_le_capacity_after_each_call true 4
    { list := malloc_cells A_BUNCH, num_el := 0, max_el := A_BUNCH }
    [ArrayCall.appendMany true (List.range 20) 17, ArrayCall.append true 5] rfl
  obtain ⟨b, hb⟩ := h.2 (by decide) (by decide) 2
  exact ⟨b, hb, (h.1 2 b hb).1⟩

/-- C2: for every sequence of append and appendMany calls on a fresh array, after each
call the cells `0 .. num_el - 1` hold exactly the elements appended so far, in call
order, and `num_el` is their number; a further call that returns puts its elements
right after the cells stored before, adds their number to `num_el` and leaves the
cells stored before as they were, whether or not it grew the block; and every call
returns when the allocator delivers, the counts fit the callers' buffers and the sizes
stay in `int` range (`SizesFit`).  A call in which an `int` expression overflows has
no defined result. -/
theorem stored_elements_are_the_appended_ones {α : Type} (allocOk : Bool) (el_size : Int)
    (a0 : SArray α) (calls : List (ArrayCall α))
    (h0 : sensors_malloc_array allocOk el_size = .ok a0) :
    (∀ k b, runCalls el_size (calls.take k) a0 = .ok b →
      b.num_el = (appended (calls.take k)).length ∧
      b.stored = (appended (calls.take k)).map some) ∧
    (∀ k b c d, runCalls el_size (calls.take k) a0 = .ok b →
      ArrayCall.run el_size c b = .ok d →
      d.num_el = b.num_el + c.elements.length ∧
      d.stored = b.stored ++ c.elements.map some ∧
      d.list.take b.num_el.toNat = b.stored) ∧
    ((∀ c ∈ calls, c.served) → SizesFit el_size (appended calls).length →
      ∀ k, ∃ b, runCalls el_size (calls.take k) a0 = .ok b) := by
  obtain ⟨hwf, hn, _, hs, _⟩ := sensors_malloc_array_spec allocOk el_size a0 h0
  refine ⟨fun k b hb => ?_, fun k b c d hb hd => ?_, fun hsv hfit k => ?_⟩
  · obtain ⟨_, n, s⟩ := runCalls_spec el_size _ a0 b hwf hb
    exact ⟨by rw [n, hn]; simp, by rw [s, hs]; simp⟩
  · obtain ⟨w, _, _⟩ := runCalls_spec el_size _ a0 b hwf hb
    obtain ⟨w2, n, s⟩ := ArrayCall.run_spec el_size c b d w hd
    refine ⟨n, s, ?_⟩
    have e : b.num_el.toNat = b.stored.length := by
      have := w.1; have := w.2.1; have := w.2.2
      simp only [SArray.stored, List.length_take]
      omega
    have hle : b.num_el.toNat ≤ d.num_el.toNat := by
      have := w.2.1
      omega
    have t : d.list.take b.num_el.toNat = d.stored.take b.num_el.toNat := by
      simp only [SArray.stored, List.take_take, Nat.min_eq_left hle]
    rw [t, s, e, List.take_left]
  · obtain ⟨b, hb⟩ := runCalls_returns el_size calls a0 hwf hsv (by rw [hn]; simpa using hfit)
    rw [← List.take_append_drop k calls] at hb
    exact runCalls_append_returns el_size _ _ a0 b hb

/-- C2 at a concrete input: elements of 4 bytes; on a fresh array holding sixteen
elements after a bulk append, a single append (which grows the block) stores its
element at index 16 and keeps the sixteen. -/
theorem stored_elements_are_the_appended_ones_witness :
    ∃ b, runCalls 4 [ArrayCall.appendMany true (List.range 20) 16, ArrayCall.append true 77]
          { list := malloc_cells A_BUNCH, num_el := 0, max_el := A_BUNCH } = .ok b ∧
      b.stored = ((List.range 16) ++ [77]).map some := by
  have h := stored_elements_are_the_appended_ones true 4
    { list := malloc_cells A_BUNCH, num_el := 0, max_el := A_BUNCH }
    [ArrayCall.appendMany true (List.range 20) 16, ArrayCall.append true 77] rfl
  obtain ⟨b, hb⟩ := h.2.2 (by decide) (by decide) 2
  exact ⟨b, hb, (h.1 2 b hb).2⟩

/-- An `int` expression that overflows gives no result: a bulk append of 2147483640
elements to a fresh array of 1-byte elements stops at `*max_el + nr_els + A_BUNCH`,
whatever the caller's buffer holds; so does `sensors_malloc_array` for elements of
`2^28` bytes. -/
theorem overflow_is_undefined :
    (∀ els : List Nat, sensors_add_array_els true 1 els 2147483640
        ⟨malloc_cells A_BUNCH, 0, A_BUNCH⟩ = .error .undefined) ∧
    (sensors_malloc_array true 268435456 : Except Fault (SArray Nat)) = .error .undefined := by
  refine ⟨fun els => ?_, ?_⟩
  · simp [sensors_add_array_els, fitsInt, INT_MAX, INT_MIN, A_BUNCH]
  · simp [sensors_malloc_array, fitsInt, INT_MAX, INT_MIN, A_BUNCH]

/-! ### Claims on growth, destruction and bulk append -/

/-- C16: on every array with `0 ≤ num_el ≤ max_el ≤ INT_MAX`, a `sensors_add_array_el` that
returns leaves `max_el` unchanged when `num_el + 1 ≤ max_el` and otherwise sets it to
`max_el + 16`; a `sensors_add_array_els` with count `n` that returns leaves it
unchanged when `num_el + n ≤ max_el` and otherwise sets it to `max_el + n + 16`
rounded down to a multiple of 16; a capacity that was raised is at most `INT_MAX`;
and both calls return when the allocator delivers, `n` is between 0 and the size of
the caller's buffer, and the sizes stay in `int` range (`SizesFit`, for the number of
elements after the call).  A call in which an `int` expression overflows has no
defined result. -/
theorem growth_policy {α : Type} (el_size : Int) (a : SArray α) (hwf : a.WellFormed) :
    (∀ allocOk el b, sensors_add_array_el allocOk el_size el a = .ok b →
      b.max_el = (if a.num_el + 1 ≤ a.max_el then a.max_el else a.max_el + A_BUNCH) ∧
      (¬ a.num_el + 1 ≤ a.max_el → b.max_el ≤ INT_MAX)) ∧
    (∀ allocOk els n b, sensors_add_array_els allocOk el_size els n a = .ok b →
      b.max_el = (if a.num_el + n ≤ a.max_el then a.max_el
        else (a.max_el + n + A_BUNCH) / A_BUNCH * A_BUNCH) ∧
      (¬ a.num_el + n ≤ a.max_el → b.max_el ≤ INT_MAX)) ∧
    (∀ el, SizesFit el_size (a.num_el + 1) →
      ∃ b, sensors_add_array_el true el_size el a = .ok b) ∧
    (∀ els n, 0 ≤ n → n ≤ (els.length : Int) → SizesFit el_size (a.num_el + n) →
      ∃ b, sensors_add_array_els true el_size els n a = .ok b) := by
  refine ⟨fun allocOk el b h => ?_, fun allocOk els n b h => ?_,
    fun el hfit => sensors_add_array_el_returns el_size el a hwf hfit,
    fun els n h0 h1 hfit => sensors_add_array_els_returns el_size els n a hwf h0 h1 hfit⟩
  · obtain ⟨_, _, _, m, _, _, f⟩ := sensors_add_array_el_spec allocOk el_size el a b hwf h
    refine ⟨?_, fun hg => (f (by omega)).2⟩
    rw [m]
    unfold A_BUNCH
    split <;> split <;> omega
  · obtain ⟨_, _, _, ⟨hn, _⟩, m, _, _, f⟩ :=
      sensors_add_array_els_spec allocOk el_size els n a b hwf h
    have hx : 0 ≤ a.max_el + n + 16 := by
      have := hwf.2.1; have := hwf.2.2
      omega
    rw [round_down_A_BUNCH _ hx] at m
    refine ⟨?_, fun hg => ?_⟩
    · rw [m]
      unfold A_BUNCH
      split <;> split <;> omega
    · have hf := (f (by omega)).2
      rw [m, if_pos (by omega)]
      omega

/-- C16 at a concrete input: elements of 8 bytes and an array holding 16 elements; one
more element makes the capacity 32, five more in bulk make it 32 (37 rounded down),
seventeen more in bulk make it 48 (49 rounded down). -/
theorem growth_policy_witness :
    (∃ b, sensors_add_array_el true 8 0
        ⟨(List.range 16).map some, 16, 16⟩ = .ok b ∧ b.max_el = 32) ∧
    (∃ b, sensors_add_array_els true 8 (List.range 5) 5
        ⟨(List.range 16).map some, 16, 16⟩ = .ok b ∧ b.max_el = 32) ∧
    (∃ b, sensors_add_array_els true 8 (List.range 17) 17
        ⟨(List.range 16).map some, 16, 16⟩ = .ok b ∧ b.max_el = 48) := by
  have h := growth_policy 8 (⟨(List.range 16).map some, 16, 16⟩ : SArray Nat) (by decide)
  obtain ⟨b1, e1⟩ := h.2.2.1 0 (by decide)
  obtain ⟨b2, e2⟩ := h.2.2.2 (List.range 5) 5 (by decide) (by decide) (by decide)
  obtain ⟨b3, e3⟩ := h.2.2.2 (List.range 17) 17 (by decide) (by decide) (by decide)
  exact ⟨⟨b1, e1, (h.1 true 0 b1 e1).1⟩, ⟨b2, e2, (h.2.1 true _ 5 b2 e2).1⟩,
    ⟨b3, e3, (h.2.1 true _ 17 b3 e3).1⟩⟩

/-- C17: for every sequence of create, append, appendMany and destroy calls that begins
with create, whatever the three objects held before, the capacity after each call is a
multiple of 16; it is 16 after a create and 0 after a destroy; and every call returns
when the allocator delivers, the bulk counts are between 0 and the sizes of the
callers' buffers, and the sizes stay in `int` range (`SizesFit`, for the number of
elements appended in all).  A call in which an `int` expression overflows has no
defined result. -/
theorem capacity_multiple_of_bunch {α : Type} (allocOk : Bool) (el_size : Int)
    (ops : List (ArrayOp α)) (a0 : SArray α) :
    (∀ k b, runOps el_size ((ArrayOp.create allocOk :: ops).take (k + 1)) a0 = .ok b →
      A_BUNCH ∣ b.max_el) ∧
    (∀ (ok : Bool) (a b : SArray α),
      (ArrayOp.create ok).run el_size a = .ok b → b.max_el = 16) ∧
    (∀ (a b : SArray α),
      (ArrayOp.destroy).run el_size a = .ok b → b.max_el = 0 ∧ b.num_el = 0) ∧
    (allocOk = true → (∀ op ∈ ops, op.served) →
      SizesFit el_size (appendedOps ops).length →
      ∀ k, ∃ b, runOps el_size ((ArrayOp.create allocOk :: ops).take (k + 1)) a0 = .ok b) := by
  refine ⟨fun k b h => ?_, fun ok a b h => ?_, fun a b h => ?_, fun hok hs hfit k => ?_⟩
  · simp only [List.take_succ_cons, runOps, ArrayOp.run] at h
    split at h
    · exact absurd h (by simp)
    · rename_i m hm
      obtain ⟨w, _, e, _⟩ := sensors_malloc_array_spec allocOk el_size m hm
      exact (runOps_spec el_size _ m b ⟨w, by rw [e]; decide⟩ h).2
  · exact (sensors_malloc_array_spec ok el_size b h).2.2.1
  · cases Except.ok.inj h
    exact ⟨rfl, rfl⟩
  · subst hok
    have hm := sensors_malloc_array_returns (α := α) el_size _ (by omega) hfit
    obtain ⟨b, hb⟩ := runOps_returns el_size ops ⟨malloc_cells A_BUNCH, 0, A_BUNCH⟩
      ⟨by simp [SArray.WellFormed, malloc_cells, A_BUNCH, INT_MAX], by simp⟩ hs
      (by simpa using hfit)
    rw [← List.take_append_drop k ops] at hb
    obtain ⟨m, hmm⟩ := runOps_append_returns el_size _ _ _ b hb
    refine ⟨m, ?_⟩
    simp only [List.take_succ_cons, runOps, ArrayOp.run, hm, hmm]

/-- C17 at a concrete input: elements of 4 bytes; create, 17 elements in bulk, destroy,
one element; the capacities are 16, 48, 0, 16. -/
theorem capacity_multiple_of_bunch_witness :
    ∃ b, runOps 4 [ArrayOp.create true, .call (.appendMany true (List.range 17) 17),
          .destroy, .call (.append true 3)] (⟨[], 5, 3⟩ : SArray Nat) = .ok b ∧
      A_BUNCH ∣ b.max_el := by
  have h := capacity_multiple_of_bunch true 4
    [.call (.appendMany true (List.range 17) 17), .destroy, .call (.append true 3)]
    (⟨[], 5, 3⟩ : SArray Nat)
  obtain ⟨b, hb⟩ := h.2.2.2 rfl (by decide) (by decide) 3
  exact ⟨b, hb, h.1 3 b hb⟩

/-- C20: for every array with `0 ≤ num_el ≤ max_el ≤ INT_MAX` and every `n` elements (`n ≥ 0`),
`sensors_add_array_els` of the `n` elements and `n` successive `sensors_add_array_el`
calls of the same elements in order, when they return, leave the same `num_el` and the
same stored elements; both return when the allocator delivers and the sizes stay in
`int` range (`SizesFit`, for the number of elements after the calls).  A call in which
an `int` expression overflows has no defined result. -/
theorem bulk_append_equals_single_appends {α : Type} (el_size : Int) (a : SArray α)
    (els : List α) (n : Int) (hwf : a.WellFormed) (hn : 0 ≤ n)
    (hlen : n ≤ (els.length : Int)) :
    (∀ (allocOk1 allocOk2 : Bool) (b c : SArray α),
      sensors_add_array_els allocOk1 el_size els n a = .ok b →
      runCalls el_size ((els.take n.toNat).map (ArrayCall.append allocOk2)) a = .ok c →
      b.num_el = c.num_el ∧ b.stored = c.stored) ∧
    (SizesFit el_size (a.num_el + n) →
      ∃ b c, sensors_add_array_els true el_size els n a = .ok b ∧
        runCalls el_size ((els.take n.toNat).map (ArrayCall.append true)) a = .ok c ∧
        b.num_el = c.num_el ∧ b.stored = c.stored) := by
  have key : ∀ (allocOk1 allocOk2 : Bool) (b c : SArray α),
      sensors_add_array_els allocOk1 el_size els n a = .ok b →
      runCalls el_size ((els.take n.toNat).map (ArrayCall.append allocOk2)) a = .ok c →
      b.num_el = c.num_el ∧ b.stored = c.stored := by
    intro allocOk1 allocOk2 b c hb hc
    obtain ⟨_, n1, s1, _, _⟩ := sensors_add_array_els_spec allocOk1 el_size els n a b hwf hb
    obtain ⟨_, n2, s2⟩ := runCalls_spec el_size _ a c hwf hc
    rw [appended_map_append] at n2 s2
    refine ⟨?_, by rw [s1, s2]⟩
    rw [n1, n2, List.length_take]
    omega
  refine ⟨key, fun hfit => ?_⟩
  obtain ⟨b, hb⟩ := sensors_add_array_els_returns el_size els n a hwf hn hlen hfit
  obtain ⟨c, hc⟩ := runCalls_returns el_size
    ((els.take n.toNat).map (ArrayCall.append true)) a hwf
    (by intro x hx
        obtain ⟨e, _, rfl⟩ := List.mem_map.mp hx
        exact rfl)
    (hfit.mono (by rw [appended_map_append, List.length_take]; omega))
  exact ⟨b, c, hb, hc, key true true b c hb hc⟩

/-- C20 at a concrete input: 17 elements of 4 bytes on a fresh array; length and stored
elements agree. -/
theorem bulk_append_equals_single_appends_witness :
    ∃ b c, sensors_add_array_els true 4 (List.range 17) 17
          ⟨malloc_cells A_BUNCH, 0, A_BUNCH⟩ = .ok b ∧
      runCalls 4 (((List.range 17).take 17).map (ArrayCall.append true))
          ⟨malloc_cells A_BUNCH, 0, A_BUNCH⟩ = .ok c ∧
      b.num_el = c.num_el ∧ b.stored = c.stored :=
  (bulk_append_equals_single_appends 4 (⟨malloc_cells A_BUNCH, 0, A_BUNCH⟩ : SArray Nat)
    (List.range 17) 17 (by decide) (by decide) (by decide)).2 (by decide)

/-- The capacities of the two ways to append 17 elements of 4 bytes to a fresh array: 48
after the bulk call, 32 after the single calls. -/
theorem bulk_and_single_capacities :
    (sensors_add_array_els true 4 (List.range 17) 17
        (⟨malloc_cells A_BUNCH, 0, A_BUNCH⟩ : SArray Nat)).toOption.map (fun b => b.max_el)
      = some 48 ∧
    (runCalls 4 ((List.range 17).map (ArrayCall.append true))
        (⟨malloc_cells A_BUNCH, 0, A_BUNCH⟩ : SArray Nat)).toOption.map (fun c => c.max_el)
      = some 32 := by
  decide

/-! ## Theorems on `src/i2c-proc.c` -/

theorem attach_scan_shift (tab : AdapterTable) (i : Nat) :
    attach_scan tab i = attach_scan tab 0 + i := by
  induction tab generalizing i with
  | nil => simp [attach_scan]
  | cons c rest ih =>
    cases c with
    | none => simp [attach_scan]
    | some a =>
      simp only [attach_scan]
      rw [ih (i + 1), ih (0 + 1)]
      omega

theorem attach_scan_full (tab : AdapterTable) (h : ∀ cell ∈ tab, cell ≠ none) :
    attach_scan tab 0 = tab.length := by
  induction tab with
  | nil => rfl
  | cons c rest ih =>
    cases c with
    | none => exact absurd rfl (h none (List.mem_cons_self _ _))
    | some a =>
      simp only [attach_scan, List.length_cons]
      rw [attach_scan_shift, ih (fun cell hc => h cell (List.mem_cons_of_mem _ hc))]

theorem mem_occupied (tab : AdapterTable) (a : AdapterPtr) :
    a ∈ occupied tab ↔ some a ∈ tab := by
  simp [occupied]

/-- Storing an adapter in the slot the scan of `i2cproc_attach_adapter` stops at adds
it to the occupied slots and changes no other. -/
theorem occupied_set_attach_scan (tab : AdapterTable) (a : AdapterPtr)
    (h : attach_scan tab 0 ≠ tab.length) :
    (occupied (tab.set (attach_scan tab 0) (some a))).Perm (a :: occupied tab) := by
  induction tab with
  | nil => exact absurd rfl h
  | cons c rest ih =>
    cases c with
    | none => simp [attach_scan, occupied]
    | some b =>
      have e : attach_scan (some b :: rest) 0 = attach_scan rest 0 + 1 := by
        simp only [attach_scan]
        rw [attach_scan_shift]
      rw [e] at h ⊢
      have h2 : attach_scan rest 0 ≠ rest.length := by
        intro k
        apply h
        simp [k]
      have p := ih h2
      simp only [List.set_cons_succ, occupied, List.filterMap_cons_some, id] at p ⊢
      exact (List.Perm.cons b p).trans (List.Perm.swap a b _)

theorem occupied_set_none (tab : AdapterTable) (i : Nat) :
    (occupied (tab.set i none)).Sublist (occupied tab) := by
  induction tab generalizing i with
  | nil => simp [occupied]
  | cons c rest ih =>
    cases i with
    | zero =>
      cases c with
      | none => simp [occupied]
      | some b => simp [occupied]
    | succ j =>
      have p := ih j
      cases c with
      | none => simpa [occupied] using p
      | some b =>
        simp only [List.set_cons_succ, occupied, List.filterMap_cons_some, id] at p ⊢
        exact List.Sublist.cons₂ b p

theorem detach_scan_table (detach_res : Int) (adapter : AdapterPtr) (tab cells : AdapterTable)
    (i : Nat) :
    (detach_scan detach_res adapter tab cells i).table = tab ∨
    ∃ j, (detach_scan detach_res adapter tab cells i).table = tab.set j none := by
  induction cells generalizing i with
  | nil => exact Or.inl rfl
  | cons c rest ih =>
    unfold detach_scan
    split
    · split
      · exact Or.inl rfl
      · exact Or.inr ⟨i, rfl⟩
    · exact ih (i + 1)

theorem attach_keeps_NoDuplicate (DEBUG : Bool) (mem : AdapterPtr → i2c_adapter)
    (kmalloc_ok : Bool) (attach_res : Int) (adapter : AdapterPtr) (tab : AdapterTable)
    (hnd : NoDuplicate tab) (habs : some adapter ∉ tab) :
    NoDuplicate (i2cproc_attach_adapter DEBUG mem kmalloc_ok attach_res adapter tab).table := by
  unfold i2cproc_attach_adapter
  split
  · exact hnd
  · simp only
    split
    · exact hnd
    · rename_i hfree
      split
      · exact hnd
      · split
        · exact hnd
        · unfold NoDuplicate
          rw [(occupied_set_attach_scan tab adapter hfree).nodup_iff]
          exact List.nodup_cons.mpr ⟨fun hm => habs ((mem_occupied tab adapter).mp hm), hnd⟩

theorem detach_keeps_NoDuplicate (DEBUG : Bool) (mem : AdapterPtr → i2c_adapter)
    (detach_res : Int) (client : i2c_client) (tab : AdapterTable) (hnd : NoDuplicate tab) :
    NoDuplicate (i2cproc_detach_client DEBUG mem detach_res client tab).table := by
  unfold i2cproc_detach_client
  split
  · exact hnd
  · rcases detach_scan_table detach_res client.adapter tab tab 0 with e | ⟨j, e⟩
    · rw [e]; exact hnd
    · rw [e]; exact List.Nodup.sublist (occupied_set_none tab j) hnd

theorem runNotifications_keeps_NoDuplicate (DEBUG : Bool) (mem : AdapterPtr → i2c_adapter)
    (ns : List Notification) (tab : AdapterTable) (hnd : NoDuplicate tab)
    (habs : AttachesAbsent DEBUG mem ns tab) :
    NoDuplicate (runNotifications DEBUG mem ns tab) := by
  induction ns generalizing tab with
  | nil => exact hnd
  | cons n rest ih =>
    obtain ⟨h1, h2⟩ := habs
    apply ih _ _ h2
    cases n with
    | attach adapter kmalloc_ok attach_res =>
      exact attach_keeps_NoDuplicate DEBUG mem kmalloc_ok attach_res adapter tab hnd
        (show some adapter ∉ tab from h1)
    | detach client detach_res =>
      exact detach_keeps_NoDuplicate DEBUG mem detach_res client tab hnd

theorem toDigitsCore_length_ge (b fuel n : Nat) (ds : List Char) :
    ds.length ≤ (Nat.toDigitsCore b fuel n ds).length := by
  induction fuel generalizing n ds with
  | zero => simp [Nat.toDigitsCore]
  | succ f ih =>
    simp only [Nat.toDigitsCore]
    split
    · simp
    · exact Nat.le_trans (by simp) (ih _ _)

theorem toDigits_length_pos (b n : Nat) : 1 ≤ (Nat.toDigits b n).length := by
  simp only [Nat.toDigits, Nat.toDigitsCore]
  split
  · simp
  · exact Nat.le_trans (by simp) (toDigitsCore_length_ge _ _ _ _)

theorem format_line_length_ge (DEBUG : Bool) (i : Nat) (a : i2c_adapter) :
    81 ≤ (format_line DEBUG i a).length := by
  have h1 := toDigits_length_pos 10 i
  have h2 : 3 ≤ (bus_kind DEBUG a).length := by
    unfold bus_kind
    split
    · decide
    · split <;> decide
  simp only [format_line, pad32, List.length_append, List.length_replicate,
    List.length_cons, List.length_nil]
  have h3 : ("/dev/i2c-".toList).length = 9 := by decide
  omega

theorem read_bus_i2c_loop_ret (DEBUG : Bool) (mem : AdapterPtr → i2c_adapter)
    (tab : AdapterTable) (i : Nat) (buf : List Char) (len : Int) :
    (read_bus_i2c_loop DEBUG mem tab i buf len).ret = len + (render DEBUG mem tab i).length := by
  induction tab generalizing i buf len with
  | nil => simp [read_bus_i2c_loop, render]
  | cons c rest ih =>
    cases c with
    | none => simp only [read_bus_i2c_loop, render]; exact ih _ _ _
    | some a =>
      simp only [read_bus_i2c_loop, render, ih, sprintf, List.length_append]
      push_cast
      omega

theorem render_length_ge (DEBUG : Bool) (mem : AdapterPtr → i2c_adapter)
    (tab : AdapterTable) (i : Nat) :
    81 * (occupied tab).length ≤ (render DEBUG mem tab i).length := by
  induction tab generalizing i with
  | nil => simp [render, occupied]
  | cons c rest ih =>
    cases c with
    | none => simpa [render, occupied] using ih (i + 1)
    | some a =>
      have h1 := format_line_length_ge DEBUG i (mem a)
      have h2 := ih (i + 1)
      have e : occupied (some a :: rest) = a :: occupied rest := rfl
      simp only [render, e, List.length_cons, List.length_append]
      omega


/-! ### Load and unload -/

theorem releasePlan_ge_three (v : Bool) (c : Int) (h : 3 ≤ c) :
    releasePlan v c = if v then [.i2c_del_driver, .remove_proc_entry]
      else [.i2c_del_driver, .proc_unregister_i2c, .proc_unregister_bus] := by
  have h2 : (2 : Int) ≤ c := by omega
  have h1 : (1 : Int) ≤ c := by omega
  cases v <;> simp [releasePlan, List.filter_cons, h, h2, h1, releaseOp]

theorem releasePlan_two (v : Bool) :
    releasePlan v 2 = if v then [.remove_proc_entry]
      else [.proc_unregister_i2c, .proc_unregister_bus] := by
  cases v <;> decide

theorem releasePlan_one (v : Bool) :
    releasePlan v 1 = if v then [.remove_proc_entry] else [.proc_unregister_bus] := by
  cases v <;> decide

theorem releasePlan_le_zero (v : Bool) (c : Int) (h : c ≤ 0) : releasePlan v c = [] := by
  have h3 : ¬ (3 : Int) ≤ c := by omega
  have h2 : ¬ (2 : Int) ≤ c := by omega
  have h1 : ¬ (1 : Int) ≤ c := by omega
  simp [releasePlan, List.filter_cons, h3, h2, h1]

/-- The host calls of `i2cproc_cleanup` are the release plan of the stage counter, cut
after the first call that fails. -/
theorem i2cproc_cleanup_trace (v : Bool) (host : HostOp → Int) (s : ModuleState) :
    (i2cproc_cleanup v host s).trace
      = untilFailure host (releasePlan v s.i2cproc_initialized) := by
  rcases s with ⟨c, b, e, d⟩
  by_cases hd : host .i2c_del_driver = 0 <;>
  by_cases hr : host .remove_proc_entry = 0 <;>
  by_cases hi : host .proc_unregister_i2c = 0 <;>
  by_cases hb : host .proc_unregister_bus = 0 <;>
  by_cases h3 : 3 ≤ c
  all_goals first
    | (rw [releasePlan_ge_three v c h3]
       have h1 : c - 1 ≥ 1 := by omega
       have h2 : c - 1 ≥ 2 := by omega
       cases v <;>
         simp [i2cproc_cleanup, i2cproc_cleanup_proc, i2cproc_cleanup_bus, untilFailure,
           hd, hr, hi, hb, h3, h1, h2])
    | (by_cases c2 : c = 2
       · subst c2
         rw [releasePlan_two]
         cases v <;>
           simp [i2cproc_cleanup, i2cproc_cleanup_proc, i2cproc_cleanup_bus, untilFailure,
             hd, hr, hi, hb]
       · by_cases c1 : c = 1
         · subst c1
           rw [releasePlan_one]
           cases v <;>
             simp [i2cproc_cleanup, i2cproc_cleanup_proc, i2cproc_cleanup_bus, untilFailure,
               hd, hr, hi, hb]
         · have h0 : c ≤ 0 := by omega
           rw [releasePlan_le_zero v c h0]
           have n1 : ¬ c ≥ 1 := by omega
           have n3 : ¬ c ≥ 3 := by omega
           simp [i2cproc_cleanup, i2cproc_cleanup_proc, untilFailure, n1, n3])

theorem heldCount_le (v : Bool) (s : ModuleState) : heldCount v s ≤ 3 := by
  unfold heldCount
  exact le_trans (List.length_filter_le _ _) (by simp)

/-- The four shapes of a state whose counter is exact. -/
theorem counterExact_iff (v : Bool) (s : ModuleState) :
    CounterExact v s ↔
      (s.i2cproc_initialized = 0 ∧ stageHeld v s 1 = false ∧ stageHeld v s 2 = false
        ∧ stageHeld v s 3 = false) ∨
      (s.i2cproc_initialized = 1 ∧ stageHeld v s 1 = true ∧ stageHeld v s 2 = false
        ∧ stageHeld v s 3 = false) ∨
      (s.i2cproc_initialized = 2 ∧ stageHeld v s 1 = true ∧ stageHeld v s 2 = true
        ∧ stageHeld v s 3 = false) ∨
      (s.i2cproc_initialized = 3 ∧ stageHeld v s 1 = true ∧ stageHeld v s 2 = true
        ∧ stageHeld v s 3 = true) := by
  constructor
  · rintro ⟨hc, hk⟩
    have hle := heldCount_le v s
    have h1 := hk 1 (by simp)
    have h2 := hk 2 (by simp)
    have h3 := hk 3 (by simp)
    have hr : s.i2cproc_initialized = 0 ∨ s.i2cproc_initialized = 1 ∨
        s.i2cproc_initialized = 2 ∨ s.i2cproc_initialized = 3 := by omega
    rcases hr with e | e | e | e <;> rw [e] at h1 h2 h3 <;> simp at h1 h2 h3 <;>
      simp [e, h1, h2, h3]
  · intro h
    have key : ∀ (c : Int), s.i2cproc_initialized = c → (c = 0 ∨ c = 1 ∨ c = 2 ∨ c = 3) →
        stageHeld v s 1 = decide (1 ≤ c) → stageHeld v s 2 = decide (2 ≤ c) →
        stageHeld v s 3 = decide (3 ≤ c) → CounterExact v s := by
      intro c hc hr h1 h2 h3
      constructor
      · rw [hc]
        unfold heldCount
        rcases hr with e | e | e | e <;> subst e <;>
          simp [List.filter_cons, h1, h2, h3]
      · intro k hk
        rw [hc]
        simp only [List.mem_cons, List.mem_singleton, List.not_mem_nil, or_false] at hk
        rcases hk with rfl | rfl | rfl
        · simp only [h1]; simp
        · simp only [h2]; simp
        · simp only [h3]; simp
    rcases h with ⟨e, h1, h2, h3⟩ | ⟨e, h1, h2, h3⟩ | ⟨e, h1, h2, h3⟩ | ⟨e, h1, h2, h3⟩
    · exact key 0 e (by simp) (by simp [h1]) (by simp [h2]) (by simp [h3])
    · exact key 1 e (by simp) (by simp [h1]) (by simp [h2]) (by simp [h3])
    · exact key 2 e (by simp) (by simp [h1]) (by simp [h2]) (by simp [h3])
    · exact key 3 e (by simp) (by simp [h1]) (by simp [h2]) (by simp [h3])

theorem stageHeld_stage (v : Bool) (s : ModuleState) (k : Nat)
    (h : stageHeld v s k = true) : k ∈ [1, 2, 3] := by
  rcases k with _ | _ | _ | _ | k
  · simp [stageHeld] at h
  · simp
  · simp
  · simp
  · simp [stageHeld] at h

theorem i2cproc_cleanup_keeps_counterExact (v : Bool) (host : HostOp → Int)
    (s : ModuleState) (h : CounterExact v s) :
    CounterExact v (i2cproc_cleanup v host s).state := by
  rw [counterExact_iff] at h ⊢
  rcases s with ⟨c, b, e, d⟩
  by_cases hd : host .i2c_del_driver = 0 <;>
  by_cases hr : host .remove_proc_entry = 0 <;>
  by_cases hi : host .proc_unregister_i2c = 0 <;>
  by_cases hb : host .proc_unregister_bus = 0 <;>
  cases v <;>
  simp only [stageHeld] at h <;>
  rcases h with ⟨rfl, h1, h2, h3⟩ | ⟨rfl, h1, h2, h3⟩ | ⟨rfl, h1, h2, h3⟩ | ⟨rfl, h1, h2, h3⟩ <;>
  simp_all [i2cproc_cleanup, i2cproc_cleanup_proc, i2cproc_cleanup_bus, stageHeld]

theorem i2cproc_init_keeps_counterExact (v : Bool) (host : HostOp → Int)
    (s : ModuleState) (h : CounterExact v s) (h0 : s.i2cproc_initialized = 0) :
    CounterExact v (i2cproc_init v host s).state := by
  have hs := (counterExact_iff v s).mp h
  rcases s with ⟨c, b, e, d⟩
  simp only at h0
  subst h0
  simp only [stageHeld] at hs
  cases v
  · simp at hs
    obtain ⟨rfl, rfl, rfl⟩ := hs
    by_cases h1 : host .proc_register_bus = 0 <;>
    by_cases h2 : host .proc_register_i2c = 0 <;>
    by_cases h3 : host .i2c_add_driver = 0 <;>
    simp only [i2cproc_init, i2cproc_init_driver, i2cproc_init_fail, h1, h2, h3,
      Bool.false_eq_true, if_false, if_true, ne_eq, not_true_eq_false, not_false_eq_true]
    all_goals first
      | (apply i2cproc_cleanup_keeps_counterExact
         rw [counterExact_iff]; simp [stageHeld])
      | (rw [counterExact_iff]; simp [stageHeld])
  · simp at hs
    obtain ⟨rfl, rfl⟩ := hs
    by_cases h1 : host .proc_bus = 0 <;>
    by_cases h2 : host .create_proc_entry = 0 <;>
    by_cases h3 : host .i2c_add_driver = 0 <;>
    simp only [i2cproc_init, i2cproc_init_driver, i2cproc_init_fail, h1, h2, h3,
      if_false, if_true, ne_eq, not_true_eq_false, not_false_eq_true]
    all_goals first
      | (apply i2cproc_cleanup_keeps_counterExact
         rw [counterExact_iff]; simp [stageHeld])
      | (rw [counterExact_iff]; simp [stageHeld])

theorem counter_zero_of_nothing_held (v : Bool) (s : ModuleState) (h : CounterExact v s)
    (hn : ∀ k ∈ [1, 2, 3], stageHeld v s k = false) : s.i2cproc_initialized = 0 := by
  have h1 := hn 1 (by simp)
  rcases (counterExact_iff v s).mp h with ⟨e, _⟩ | ⟨_, g, _⟩ | ⟨_, g, _⟩ | ⟨_, g, _⟩
  · exact e
  · rw [h1] at g; exact absurd g (by simp)
  · rw [h1] at g; exact absurd g (by simp)
  · rw [h1] at g; exact absurd g (by simp)

theorem runModule_keeps_counterExact (v : Bool) (calls : List ModuleCall) (s : ModuleState)
    (h : CounterExact v s) (hl : LoadsWhenNothingHeld v calls s) :
    CounterExact v (runModule v calls s) := by
  induction calls generalizing s with
  | nil => exact h
  | cons c cs ih =>
    obtain ⟨h1, h2⟩ := hl
    apply ih _ _ h2
    cases c with
    | load host =>
      exact i2cproc_init_keeps_counterExact v host s h
        (counter_zero_of_nothing_held v s h h1)
    | unload host => exact i2cproc_cleanup_keeps_counterExact v host s h

theorem unloaded_counterExact (v : Bool) : CounterExact v unloaded := by
  rw [counterExact_iff]
  cases v <;> simp [unloaded, stageHeld]

theorem i2cproc_cleanup_keeps_range (v : Bool) (host : HostOp → Int) (s : ModuleState)
    (h : StageCounterRange v s.i2cproc_initialized) :
    StageCounterRange v (i2cproc_cleanup v host s).state.i2cproc_initialized := by
  rcases s with ⟨c, b, e, d⟩
  unfold StageCounterRange at h ⊢
  by_cases hd : host .i2c_del_driver = 0 <;>
  by_cases hr : host .remove_proc_entry = 0 <;>
  by_cases hi : host .proc_unregister_i2c = 0 <;>
  by_cases hb : host .proc_unregister_bus = 0 <;>
  cases v <;>
  rcases h with rfl | ⟨hv, rfl⟩ | rfl | rfl <;>
  simp_all [i2cproc_cleanup, i2cproc_cleanup_proc, i2cproc_cleanup_bus]

theorem i2cproc_init_range (v : Bool) (host : HostOp → Int) (s : ModuleState) :
    StageCounterRange v (i2cproc_init v host s).state.i2cproc_initialized := by
  rcases s with ⟨c, b, e, d⟩
  cases v
  · by_cases h1 : host .proc_register_bus = 0 <;>
    by_cases h2 : host .proc_register_i2c = 0 <;>
    by_cases h3 : host .i2c_add_driver = 0 <;>
    simp only [i2cproc_init, i2cproc_init_driver, i2cproc_init_fail, h1, h2, h3,
      Bool.false_eq_true, if_false, if_true, ne_eq, not_true_eq_false, not_false_eq_true]
    all_goals first
      | (apply i2cproc_cleanup_keeps_range
         simp [StageCounterRange])
      | simp [StageCounterRange]
  · by_cases h1 : host .proc_bus = 0 <;>
    by_cases h2 : host .create_proc_entry = 0 <;>
    by_cases h3 : host .i2c_add_driver = 0 <;>
    simp only [i2cproc_init, i2cproc_init_driver, i2cproc_init_fail, h1, h2, h3,
      if_false, if_true, ne_eq, not_true_eq_false, not_false_eq_true]
    all_goals first
      | (apply i2cproc_cleanup_keeps_range
         simp [StageCounterRange])
      | simp [StageCounterRange]

theorem runModule_keeps_range (v : Bool) (calls : List ModuleCall) (s : ModuleState)
    (h : StageCounterRange v s.i2cproc_initialized) :
    StageCounterRange v (runModule v calls s).i2cproc_initialized := by
  induction calls generalizing s with
  | nil => exact h
  | cons c cs ih =>
    apply ih
    cases c with
    | load host => exact i2cproc_init_range v host s
    | unload host => exact i2cproc_cleanup_keeps_range v host s h

theorem i2cproc_cleanup_success_zero (v : Bool) (host : HostOp → Int) (s : ModuleState)
    (h : StageCounterRange v s.i2cproc_initialized)
    (hret : (i2cproc_cleanup v host s).ret = 0) :
    (i2cproc_cleanup v host s).state.i2cproc_initialized = 0 := by
  rcases s with ⟨c, b, e, d⟩
  unfold StageCounterRange at h
  revert hret
  by_cases hd : host .i2c_del_driver = 0 <;>
  by_cases hr : host .remove_proc_entry = 0 <;>
  by_cases hi : host .proc_unregister_i2c = 0 <;>
  by_cases hb : host .proc_unregister_bus = 0 <;>
  cases v <;>
  rcases h with rfl | ⟨hv, rfl⟩ | rfl | rfl <;>
  simp_all [i2cproc_cleanup, i2cproc_cleanup_proc, i2cproc_cleanup_bus]

theorem i2cproc_cleanup_at_zero (v : Bool) (host : HostOp → Int) (s : ModuleState)
    (h : s.i2cproc_initialized = 0) : i2cproc_cleanup v host s = ⟨0, s, []⟩ := by
  simp [i2cproc_cleanup, i2cproc_cleanup_proc, h]

/-- The value `i2cproc_cleanup` returns: 0 when no call of the plan fails, and
otherwise what the last call it made returned. -/
theorem i2cproc_cleanup_ret (v : Bool) (host : HostOp → Int) (s : ModuleState) :
    ((∀ op ∈ releasePlan v s.i2cproc_initialized, host op = 0) →
      (i2cproc_cleanup v host s).ret = 0) ∧
    ((i2cproc_cleanup v host s).ret ≠ 0 →
      ∃ op, (i2cproc_cleanup v host s).trace.getLast? = some op ∧
        host op = (i2cproc_cleanup v host s).ret) := by
  rcases s with ⟨c, b, e, d⟩
  by_cases hd : host .i2c_del_driver = 0 <;>
  by_cases hr : host .remove_proc_entry = 0 <;>
  by_cases hi : host .proc_unregister_i2c = 0 <;>
  by_cases hb : host .proc_unregister_bus = 0 <;>
  by_cases h3 : 3 ≤ c
  all_goals first
    | (rw [releasePlan_ge_three v c h3]
       have h1 : c - 1 ≥ 1 := by omega
       have h2 : c - 1 ≥ 2 := by omega
       cases v <;>
         simp [i2cproc_cleanup, i2cproc_cleanup_proc, i2cproc_cleanup_bus,
           hd, hr, hi, hb, h3, h1, h2])
    | (by_cases c2 : c = 2
       · subst c2
         rw [releasePlan_two]
         cases v <;>
           simp [i2cproc_cleanup, i2cproc_cleanup_proc, i2cproc_cleanup_bus,
             hd, hr, hi, hb]
       · by_cases c1 : c = 1
         · subst c1
           rw [releasePlan_one]
           cases v <;>
             simp [i2cproc_cleanup, i2cproc_cleanup_proc, i2cproc_cleanup_bus,
               hd, hr, hi, hb]
         · have h0 : c ≤ 0 := by omega
           rw [releasePlan_le_zero v c h0]
           have n1 : ¬ c ≥ 1 := by omega
           have n3 : ¬ c ≥ 3 := by omega
           simp [i2cproc_cleanup, i2cproc_cleanup_proc, n1, n3])

theorem untilFailure_all_ok (host : HostOp → Int) (plan : List HostOp)
    (h : ∀ op ∈ plan, host op = 0) : untilFailure host plan = plan := by
  induction plan with
  | nil => rfl
  | cons op rest ih =>
    have h1 := h op (List.mem_cons_self _ _)
    simp only [untilFailure, h1, ne_eq, not_true_eq_false, if_false]
    rw [ih (fun o ho => h o (List.mem_cons_of_mem _ ho))]

/-- The release call of every stage up to the counter is in the release plan. -/
theorem releaseOp_mem_plan (v : Bool) (c : Int) (k : Nat) (h1 : 1 ≤ k) (h3 : k ≤ 3)
    (hk : (k : Int) ≤ c) : releaseOp v k ∈ releasePlan v c := by
  unfold releasePlan
  rw [List.mem_dedup, List.mem_map]
  refine ⟨k, ?_, rfl⟩
  rw [List.mem_filter]
  refine ⟨?_, by simpa using hk⟩
  have : k = 1 ∨ k = 2 ∨ k = 3 := by omega
  rcases this with rfl | rfl | rfl <;> simp

/-! ### Slots found by the scans -/

/-- Where the scan of `i2cproc_attach_adapter` stops: every slot before it is occupied,
and it is an empty slot unless it is the end of the table. -/
theorem attach_scan_spec (tab : AdapterTable) :
    attach_scan tab 0 ≤ tab.length ∧
    (∀ j, j < attach_scan tab 0 → ∃ a, tab[j]? = some (some a)) ∧
    (attach_scan tab 0 < tab.length → tab[attach_scan tab 0]? = some none) := by
  induction tab with
  | nil => simp [attach_scan]
  | cons c rest ih =>
    cases c with
    | none => simp [attach_scan]
    | some b =>
      have e : attach_scan (some b :: rest) 0 = attach_scan rest 0 + 1 := by
        simp only [attach_scan]
        rw [attach_scan_shift]
      obtain ⟨h1, h2, h3⟩ := ih
      rw [e]
      refine ⟨by simp; omega, ?_, ?_⟩
      · intro j hj
        cases j with
        | zero => exact ⟨b, by simp⟩
        | succ j => simpa using h2 j (by omega)
      · intro hlt
        simpa using h3 (by simpa using hlt)

theorem attach_scan_lt_of_free (tab : AdapterTable) (h : none ∈ tab) :
    attach_scan tab 0 < tab.length := by
  obtain ⟨h1, h2, _⟩ := attach_scan_spec tab
  rcases Nat.lt_or_ge (attach_scan tab 0) tab.length with hlt | hge
  · exact hlt
  · exfalso
    obtain ⟨j, hj, e⟩ := List.getElem_of_mem h
    obtain ⟨a, ha⟩ := h2 j (by omega)
    rw [List.getElem?_eq_getElem hj, e] at ha
    exact absurd ha (by simp)

/-- The scan of `i2cproc_attach_adapter` stops at the empty slot all of whose
predecessors are occupied. -/
theorem attach_scan_eq (tab : AdapterTable) (i : Nat) (hi : tab[i]? = some none)
    (hlow : ∀ j, j < i → ∃ a, tab[j]? = some (some a)) : attach_scan tab 0 = i := by
  obtain ⟨h1, h2, h3⟩ := attach_scan_spec tab
  have hil : i < tab.length := by
    rcases Nat.lt_or_ge i tab.length with h | h
    · exact h
    · rw [List.getElem?_eq_none h] at hi
      exact absurd hi (by simp)
  rcases Nat.lt_trichotomy (attach_scan tab 0) i with hlt | heq | hgt
  · obtain ⟨a, ha⟩ := hlow _ hlt
    rw [h3 (by omega)] at ha
    exact absurd ha (by simp)
  · exact heq
  · obtain ⟨a, ha⟩ := h2 i hgt
    rw [hi] at ha
    exact absurd ha (by simp)

/-- The scan of `i2cproc_detach_client` over cells that hold the adapter: it stops at
the first such cell. -/
theorem detach_scan_found (detach_res : Int) (adapter : AdapterPtr) (tab cells : AdapterTable)
    (i : Nat) (h : some adapter ∈ cells) :
    ∃ k, cells[k]? = some (some adapter) ∧
      (∀ j, j < k → cells[j]? ≠ some (some adapter)) ∧
      detach_scan detach_res adapter tab cells i =
        if detach_res ≠ 0 then ⟨detach_res, tab, [.i2c_detach_client adapter]⟩
        else ⟨0, tab.set (i + k) none, [.i2c_detach_client adapter, .kfree]⟩ := by
  induction cells generalizing i with
  | nil => exact absurd h (by simp)
  | cons c rest ih =>
    by_cases hc : c = some adapter
    · refine ⟨0, by simp [hc], fun j hj => absurd hj (by omega), ?_⟩
      simp [detach_scan, hc]
    · have hr : some adapter ∈ rest := by
        rcases List.mem_cons.mp h with e | e
        · exact absurd e.symm hc
        · exact e
      obtain ⟨k, k1, k2, k3⟩ := ih (i + 1) hr
      refine ⟨k + 1, by simpa using k1, ?_, ?_⟩
      · intro j hj
        cases j with
        | zero => simpa using hc
        | succ j => simpa using k2 j (by omega)
      · simp only [detach_scan, hc, if_false]
        rw [k3]
        have e : i + 1 + k = i + (k + 1) := by omega
        rw [e]

theorem detach_scan_absent (detach_res : Int) (adapter : AdapterPtr) (tab cells : AdapterTable)
    (i : Nat) (h : some adapter ∉ cells) :
    detach_scan detach_res adapter tab cells i = ⟨-ENOENT, tab, []⟩ := by
  induction cells generalizing i with
  | nil => rfl
  | cons c rest ih =>
    have hc : c ≠ some adapter := fun e => h (by simp [e])
    have hr : some adapter ∉ rest := fun e => h (List.mem_cons_of_mem _ e)
    simp only [detach_scan, hc, if_false]
    exact ih (i + 1) hr

/-! ### Order and gating of the releases -/

theorem untilFailure_append (host : HostOp → Int) (plan : List HostOp) :
    ∃ rest, untilFailure host plan ++ rest = plan := by
  induction plan with
  | nil => exact ⟨[], rfl⟩
  | cons op ops ih =>
    obtain ⟨rest, hr⟩ := ih
    by_cases h : host op ≠ 0
    · exact ⟨ops, by simp [untilFailure, h]⟩
    · refine ⟨rest, ?_⟩
      simp only [untilFailure, h, if_false, List.cons_append, hr]

theorem untilFailure_sublist (host : HostOp → Int) (plan : List HostOp) :
    (untilFailure host plan).Sublist plan := by
  obtain ⟨rest, hr⟩ := untilFailure_append host plan
  have h := List.sublist_append_left (untilFailure host plan) rest
  rwa [hr] at h

theorem releasePlan_sublist_order (v : Bool) (c : Int) (h : StageCounterRange v c) :
    (releasePlan v c).Sublist (releaseOrder v) := by
  rcases h with rfl | ⟨rfl, rfl⟩ | rfl | rfl
  · cases v <;> decide
  · decide
  · cases v <;> decide
  · cases v <;> decide

theorem mem_releasePlan (v : Bool) (c : Int) (op : HostOp) (h : op ∈ releasePlan v c) :
    ∃ k ∈ ([1, 2, 3] : List Nat), op = releaseOp v k ∧ (k : Int) ≤ c := by
  unfold releasePlan at h
  rw [List.mem_dedup, List.mem_map] at h
  obtain ⟨k, hk, rfl⟩ := h
  rw [List.mem_filter] at hk
  refine ⟨k, ?_, rfl, by simpa using hk.2⟩
  have := hk.1
  simp only [List.mem_cons, List.mem_singleton, List.not_mem_nil, or_false] at this ⊢
  omega

theorem i2cproc_cleanup_keeps_heldUpTo (v : Bool) (host : HostOp → Int) (s : ModuleState)
    (h : HeldUpToCounter v s) : HeldUpToCounter v (i2cproc_cleanup v host s).state := by
  rcases s with ⟨c, b, e, d⟩
  unfold HeldUpToCounter StageCounterRange at h ⊢
  obtain ⟨hr, hh⟩ := h
  have h1 := hh 1 (by simp)
  have h2 := hh 2 (by simp)
  have h3 := hh 3 (by simp)
  clear hh
  simp only [stageHeld] at h1 h2 h3
  cases v
  · rcases hr with rfl | ⟨_, rfl⟩ | rfl | rfl
    all_goals
      simp at h1 h2 h3
      by_cases hd : host .i2c_del_driver = 0 <;>
      by_cases hi : host .proc_unregister_i2c = 0 <;>
      by_cases hb : host .proc_unregister_bus = 0 <;>
      simp [i2cproc_cleanup, i2cproc_cleanup_proc, i2cproc_cleanup_bus, stageHeld,
        hd, hi, hb, h1, h2, h3]
  · rcases hr with rfl | ⟨hv, rfl⟩ | rfl | rfl
    all_goals first
      | exact absurd hv (by decide)
      | (simp at h1 h2 h3
         by_cases hd : host .i2c_del_driver = 0 <;>
         by_cases hrm : host .remove_proc_entry = 0 <;>
         simp [i2cproc_cleanup, i2cproc_cleanup_proc, i2cproc_cleanup_bus, stageHeld,
           hd, hrm, h1, h2, h3])

theorem i2cproc_init_heldUpTo (v : Bool) (host : HostOp → Int) (s : ModuleState) :
    HeldUpToCounter v (i2cproc_init v host s).state := by
  rcases s with ⟨c, b, e, d⟩
  cases v
  · by_cases h1 : host .proc_register_bus = 0 <;>
    by_cases h2 : host .proc_register_i2c = 0 <;>
    by_cases h3 : host .i2c_add_driver = 0 <;>
    simp only [i2cproc_init, i2cproc_init_driver, i2cproc_init_fail, h1, h2, h3,
      Bool.false_eq_true, if_false, if_true, ne_eq, not_true_eq_false, not_false_eq_true]
    all_goals first
      | (apply i2cproc_cleanup_keeps_heldUpTo
         simp [HeldUpToCounter, StageCounterRange, stageHeld])
      | simp [HeldUpToCounter, StageCounterRange, stageHeld]
  · by_cases h1 : host .proc_bus = 0 <;>
    by_cases h2 : host .create_proc_entry = 0 <;>
    by_cases h3 : host .i2c_add_driver = 0 <;>
    simp only [i2cproc_init, i2cproc_init_driver, i2cproc_init_fail, h1, h2, h3,
      if_false, if_true, ne_eq, not_true_eq_false, not_false_eq_true]
    all_goals first
      | (apply i2cproc_cleanup_keeps_heldUpTo
         simp [HeldUpToCounter, StageCounterRange, stageHeld])
      | simp [HeldUpToCounter, StageCounterRange, stageHeld]

theorem runModule_keeps_heldUpTo (v : Bool) (calls : List ModuleCall) (s : ModuleState)
    (h : HeldUpToCounter v s) : HeldUpToCounter v (runModule v calls s) := by
  induction calls generalizing s with
  | nil => exact h
  | cons c cs ih =>
    apply ih
    cases c with
    | load host => exact i2cproc_init_heldUpTo v host s
    | unload host => exact i2cproc_cleanup_keeps_heldUpTo v host s h

/-- The function `i2cproc_cleanup` never raises the stage counter. -/
theorem i2cproc_cleanup_counter_le (v : Bool) (host : HostOp → Int) (s : ModuleState) :
    (i2cproc_cleanup v host s).state.i2cproc_initialized ≤ s.i2cproc_initialized := by
  rcases s with ⟨c, b, e, d⟩
  simp only [i2cproc_cleanup, i2cproc_cleanup_proc, i2cproc_cleanup_bus]
  cases v <;> split_ifs <;> simp only [] <;> omega

/-- After `i2cproc_init` the stage counter is 3 exactly when the three acquisitions
succeeded. -/
theorem i2cproc_init_counter_three (v : Bool) (host : HostOp → Int) (s : ModuleState) :
    (i2cproc_init v host s).state.i2cproc_initialized = 3 ↔
      ∀ k ∈ ([1, 2, 3] : List Nat), acquires v host k = true := by
  rcases s with ⟨c, b, e, d⟩
  have le0 : ∀ b e d, (i2cproc_cleanup v host ⟨0, b, e, d⟩).state.i2cproc_initialized ≤ 0 :=
    fun b e d => i2cproc_cleanup_counter_le v host ⟨0, b, e, d⟩
  have le1 : ∀ b e d, (i2cproc_cleanup v host ⟨1, b, e, d⟩).state.i2cproc_initialized ≤ 1 :=
    fun b e d => i2cproc_cleanup_counter_le v host ⟨1, b, e, d⟩
  have le2 : ∀ b e d, (i2cproc_cleanup v host ⟨2, b, e, d⟩).state.i2cproc_initialized ≤ 2 :=
    fun b e d => i2cproc_cleanup_counter_le v host ⟨2, b, e, d⟩
  cases v
  · by_cases h1 : host .proc_register_bus = 0 <;>
    by_cases h2 : host .proc_register_i2c = 0 <;>
    by_cases h3 : host .i2c_add_driver = 0 <;>
    simp [i2cproc_init, i2cproc_init_driver, i2cproc_init_fail, acquires, h1, h2, h3]
    all_goals
      have g0 := le0 b e d
      have g1 := le1 true e d
      have g2 := le2 true true d
      omega
  · by_cases h1 : host .proc_bus = 0 <;>
    by_cases h2 : host .create_proc_entry = 0 <;>
    by_cases h3 : host .i2c_add_driver = 0 <;>
    simp [i2cproc_init, i2cproc_init_driver, i2cproc_init_fail, acquires, h1, h2, h3]
    all_goals
      have g0 := le0 b e d
      have g2 := le2 b true d
      omega

/-! ### The value `i2cproc_cleanup` returns -/

/-- The function `i2cproc_cleanup` returns 0 only when no call of the release plan
fails. -/
theorem i2cproc_cleanup_ret_zero (v : Bool) (host : HostOp → Int) (s : ModuleState)
    (h : (i2cproc_cleanup v host s).ret = 0) :
    ∀ op ∈ releasePlan v s.i2cproc_initialized, host op = 0 := by
  rcases s with ⟨c, b, e, d⟩
  revert h
  by_cases hd : host .i2c_del_driver = 0 <;>
  by_cases hr : host .remove_proc_entry = 0 <;>
  by_cases hi : host .proc_unregister_i2c = 0 <;>
  by_cases hb : host .proc_unregister_bus = 0 <;>
  by_cases h3 : 3 ≤ c
  all_goals first
    | (rw [releasePlan_ge_three v c h3]
       have h1 : c - 1 ≥ 1 := by omega
       have h2 : c - 1 ≥ 2 := by omega
       cases v <;>
         simp [i2cproc_cleanup, i2cproc_cleanup_proc, i2cproc_cleanup_bus,
           hd, hr, hi, hb, h3, h1, h2])
    | (by_cases c2 : c = 2
       · subst c2
         rw [releasePlan_two]
         cases v <;>
           simp [i2cproc_cleanup, i2cproc_cleanup_proc, i2cproc_cleanup_bus,
             hd, hr, hi, hb]
       · by_cases c1 : c = 1
         · subst c1
           rw [releasePlan_one]
           cases v <;>
             simp [i2cproc_cleanup, i2cproc_cleanup_proc, i2cproc_cleanup_bus,
               hd, hr, hi, hb]
         · have h0 : c ≤ 0 := by omega
           rw [releasePlan_le_zero v c h0]
           simp)

/-- When a call of the release plan fails, `i2cproc_cleanup` returns what the last call
it made returned, and that is not 0. -/
theorem i2cproc_cleanup_failure (v : Bool) (host : HostOp → Int) (s : ModuleState)
    (h : ∃ op ∈ releasePlan v s.i2cproc_initialized, host op ≠ 0) :
    ∃ op, (i2cproc_cleanup v host s).trace.getLast? = some op ∧ host op ≠ 0 ∧
      (i2cproc_cleanup v host s).ret = host op := by
  have hne : (i2cproc_cleanup v host s).ret ≠ 0 := by
    intro h0
    obtain ⟨op, hop, hf⟩ := h
    exact hf (i2cproc_cleanup_ret_zero v host s h0 op hop)
  obtain ⟨op, h1, h2⟩ := (i2cproc_cleanup_ret v host s).2 hne
  exact ⟨op, h1, by rw [h2]; exact hne, h2.symm⟩

/-! ### Claims on the adapter table -/

/-- C3: for every adapter that passes the inclusion test (`DEBUG` is defined, or the
adapter is not an ISA adapter), `i2cproc_attach_adapter` on a table whose slots are all
occupied returns `-ENOMEM`, makes no host call and leaves the table as it was. -/
theorem attach_full_table_fails_unchanged (DEBUG : Bool) (mem : AdapterPtr → i2c_adapter)
    (kmalloc_ok : Bool) (attach_res : Int) (adapter : AdapterPtr) (tab : AdapterTable)
    (hincl : DEBUG = true ∨ (mem adapter).is_isa = false)
    (hfull : ∀ cell ∈ tab, cell ≠ none) :
    i2cproc_attach_adapter DEBUG mem kmalloc_ok attach_res adapter tab
      = ⟨-ENOMEM, tab, []⟩ := by
  unfold i2cproc_attach_adapter
  have hi : (!DEBUG && (mem adapter).is_isa) = false := by
    rcases hincl with h | h <;> simp [h]
  simp [hi, attach_scan_full tab hfull]

/-- C3 at a concrete input: a table of two slots holding the adapters 11 and 12, and
the adapter 13 being attached. -/
theorem attach_full_table_fails_unchanged_witness :
    i2cproc_attach_adapter false (fun _ => ⟨[], [], false, false⟩) true 0 13
      [some 11, some 12] = ⟨-12, [some 11, some 12], []⟩ :=
  attach_full_table_fails_unchanged false (fun _ => ⟨[], [], false, false⟩) true 0 13
    [some 11, some 12] (Or.inr rfl) (by decide)

/-- C4 as stated fails: the same adapter attached twice, both host registrations
succeeding, occupies two slots. -/
theorem attach_twice_duplicates :
    runNotifications false (fun _ => ⟨[], [], false, false⟩)
        [.attach 7 true 0, .attach 7 true 0] (emptyTable 2) = [some 7, some 7] ∧
    ¬ NoDuplicate (runNotifications false (fun _ => ⟨[], [], false, false⟩)
        [.attach 7 true 0, .attach 7 true 0] (emptyTable 2)) := by
  exact ⟨by decide, by decide⟩

/-- C4 amended: for every sequence of attach and detach notifications starting from
the empty table, with any outcomes of the host-side calls, in which no attach
notification is for an adapter that occupies a slot when it arrives, no two occupied
slots of the table hold the same adapter. -/
theorem no_duplicate_when_attaches_absent (DEBUG : Bool) (mem : AdapterPtr → i2c_adapter)
    (I2C_ADAP_MAX : Nat) (ns : List Notification)
    (habs : AttachesAbsent DEBUG mem ns (emptyTable I2C_ADAP_MAX)) :
    NoDuplicate (runNotifications DEBUG mem ns (emptyTable I2C_ADAP_MAX)) := by
  apply runNotifications_keeps_NoDuplicate DEBUG mem ns _ _ habs
  simp [NoDuplicate, occupied, emptyTable]

/-- C4 amended at a concrete input: attach 7, attach 8, detach 7, attach 9, attach 7 on
a table of three slots. -/
theorem no_duplicate_when_attaches_absent_witness :
    runNotifications false (fun _ => ⟨[], [], false, false⟩)
        [.attach 7 true 0, .attach 8 true 0, .detach ⟨7⟩ 0, .attach 9 true 0,
          .attach 7 true 0] (emptyTable 3) = [some 9, some 8, some 7] ∧
    NoDuplicate (runNotifications false (fun _ => ⟨[], [], false, false⟩)
        [.attach 7 true 0, .attach 8 true 0, .detach ⟨7⟩ 0, .attach 9 true 0,
          .attach 7 true 0] (emptyTable 3)) :=
  ⟨by decide,
   no_duplicate_when_attaches_absent false (fun _ => ⟨[], [], false, false⟩) 3
    [.attach 7 true 0, .attach 8 true 0, .detach ⟨7⟩ 0, .attach 9 true 0, .attach 7 true 0]
    (by decide)⟩

/-! ### Claims on the read callback -/

set_option maxRecDepth 100000 in
/-- C5 on a table with two occupied slots: every line is written at the start of the
buffer, so the buffer ends up with the line of slot 1 only, while the value returned
counts both lines.  The text the specification asks for, `render`, has two lines. -/
theorem read_bus_i2c_keeps_last_line_only :
    (read_bus_i2c false (fun _ => ⟨"a".toList, "b".toList, false, false⟩)
        [some 1, some 2] (List.replicate 200 '\x00') 200).ret = 162 ∧
    c_string (read_bus_i2c false (fun _ => ⟨"a".toList, "b".toList, false, false⟩)
        [some 1, some 2] (List.replicate 200 '\x00') 200).buf
      = format_line false 1 ⟨"a".toList, "b".toList, false, false⟩ ∧
    ((read_bus_i2c false (fun _ => ⟨"a".toList, "b".toList, false, false⟩)
        [some 1, some 2] (List.replicate 200 '\x00') 200).buf.take 162).count '\n' = 1 ∧
    (render false (fun _ => ⟨"a".toList, "b".toList, false, false⟩)
        [some 1, some 2] 0).count '\n' = 2 ∧
    (occupied [some 1, some 2]).length = 2 := by
  decide

set_option maxRecDepth 100000 in
/-- C6 as stated fails: asked for 16 bytes on a table with one occupied slot,
`read_bus_i2c` returns 81, and the first 81 bytes of the buffer are the line. -/
theorem read_bus_i2c_exceeds_len :
    ¬ ((read_bus_i2c false (fun _ => ⟨"a".toList, "b".toList, false, false⟩) [some 1]
          (List.replicate 128 'x') 16).ret ≤ 16) ∧
    (read_bus_i2c false (fun _ => ⟨"a".toList, "b".toList, false, false⟩) [some 1]
          (List.replicate 128 'x') 16).ret = 81 ∧
    (read_bus_i2c false (fun _ => ⟨"a".toList, "b".toList, false, false⟩) [some 1]
          (List.replicate 128 'x') 16).buf.take 81
      = format_line false 0 ⟨"a".toList, "b".toList, false, false⟩ := by
  decide

/-- C6 amended: `read_bus_i2c` does not use the length it is passed.  For every table,
buffer and `len`, the value returned is the total length of the lines of the occupied
slots, at least 81 for each occupied slot, and call and result are the same as with
`len` 0; so the value is at most `len` exactly when `len` is at least that total. -/
theorem read_bus_i2c_ignores_len (DEBUG : Bool) (mem : AdapterPtr → i2c_adapter)
    (tab : AdapterTable) (buf : List Char) (len : Int) :
    (read_bus_i2c DEBUG mem tab buf len).ret = (render DEBUG mem tab 0).length ∧
    read_bus_i2c DEBUG mem tab buf len = read_bus_i2c DEBUG mem tab buf 0 ∧
    81 * ((occupied tab).length : Int) ≤ (read_bus_i2c DEBUG mem tab buf len).ret ∧
    ((read_bus_i2c DEBUG mem tab buf len).ret ≤ len ↔
      ((render DEBUG mem tab 0).length : Int) ≤ len) := by
  have e : (read_bus_i2c DEBUG mem tab buf len).ret = (render DEBUG mem tab 0).length := by
    simp [read_bus_i2c, read_bus_i2c_loop_ret]
  refine ⟨e, rfl, ?_, by rw [e]⟩
  rw [e]
  exact_mod_cast render_length_ge DEBUG mem tab 0

/-! ### Claims on load and unload -/

/-- C7: for each of the three load stages `k`, if in `i2cproc_init` started from the
unloaded state the stages before `k` are acquired, the acquisition of stage `k` fails
and every release call succeeds, then `i2cproc_init` returns an error, no stage is held
afterwards, and the state is the unloaded state again. -/
theorem failed_load_rolls_back (LINUX_2_1 : Bool) (host : HostOp → Int) (k : Nat)
    (hk : 1 ≤ k ∧ k ≤ 3)
    (hprev : ∀ j, 1 ≤ j → j < k → acquires LINUX_2_1 host j = true)
    (hfail : acquires LINUX_2_1 host k = false)
    (hrel : ∀ op ∈ releaseOps, host op = 0) :
    (i2cproc_init LINUX_2_1 host unloaded).ret ≠ 0 ∧
    (∀ j, stageHeld LINUX_2_1 (i2cproc_init LINUX_2_1 host unloaded).state j = false) ∧
    (i2cproc_init LINUX_2_1 host unloaded).state = unloaded := by
  have hd : host .i2c_del_driver = 0 := hrel _ (by simp [releaseOps])
  have hr : host .remove_proc_entry = 0 := hrel _ (by simp [releaseOps])
  have hi : host .proc_unregister_i2c = 0 := hrel _ (by simp [releaseOps])
  have hb : host .proc_unregister_bus = 0 := hrel _ (by simp [releaseOps])
  have hs : ∀ j, stageHeld LINUX_2_1 unloaded j = false := by
    intro j
    rcases j with _ | _ | _ | _ | j <;> cases LINUX_2_1 <;> simp [stageHeld, unloaded]
  have key : (i2cproc_init LINUX_2_1 host unloaded).ret ≠ 0 ∧
      (i2cproc_init LINUX_2_1 host unloaded).state = unloaded := by
    obtain ⟨k1, k3⟩ := hk
    have hcases : k = 1 ∨ k = 2 ∨ k = 3 := by omega
    rcases hcases with rfl | rfl | rfl
    · cases LINUX_2_1 <;> simp only [acquires] at hfail <;> simp at hfail <;>
        simp [i2cproc_init, i2cproc_init_fail, i2cproc_cleanup, i2cproc_cleanup_proc,
          unloaded, hfail, ENOENT]
    · have p1 := hprev 1 (by omega) (by omega)
      cases LINUX_2_1 <;> simp only [acquires] at hfail p1 <;> simp at hfail p1 <;>
        simp [i2cproc_init, i2cproc_init_fail, i2cproc_cleanup, i2cproc_cleanup_proc,
          i2cproc_cleanup_bus, unloaded, hfail, p1, hb, ENOENT]
    · have p1 := hprev 1 (by omega) (by omega)
      have p2 := hprev 2 (by omega) (by omega)
      cases LINUX_2_1 <;> simp only [acquires] at hfail p1 p2 <;> simp at hfail p1 p2 <;>
        simp [i2cproc_init, i2cproc_init_fail, i2cproc_init_driver, i2cproc_cleanup,
          i2cproc_cleanup_proc, i2cproc_cleanup_bus, unloaded, hfail, p1, p2, hb, hi, hr]
  exact ⟨key.1, fun j => by rw [key.2]; exact hs j, key.2⟩

/-- C7 at a concrete input: the 2.0 code, the driver registration (stage 3) failing
with -16 after both proc entries were registered. -/
theorem failed_load_rolls_back_witness :
    (i2cproc_init false (fun op => if op = .i2c_add_driver then -16 else 0) unloaded).ret
      = -16 ∧
    (i2cproc_init false (fun op => if op = .i2c_add_driver then -16 else 0) unloaded).trace
      = [.proc_register_bus, .proc_register_i2c, .i2c_add_driver, .proc_unregister_i2c,
          .proc_unregister_bus] ∧
    (i2cproc_init false (fun op => if op = .i2c_add_driver then -16 else 0) unloaded).state
      = unloaded :=
  ⟨by decide, by decide,
   (failed_load_rolls_back false (fun op => if op = .i2c_add_driver then -16 else 0) 3
      (by decide)
      (by intro j h1 h3
          have : j = 1 ∨ j = 2 := by omega
          rcases this with rfl | rfl <;> decide)
      (by decide) (by decide)).2.2⟩

/-- C8 as stated fails, in two ways.  In the fully loaded state (2.0 code) with
`i2c_del_driver` failing, `i2cproc_cleanup` returns at once; the releases of the two
proc entries, both still held, are not attempted.  And in the state left by a load
whose rollback failed followed by a load whose first stage failed, the counter is 0
while the directory and the entry are held: `i2cproc_cleanup` makes no call at all
and returns 0. -/
theorem cleanup_returns_at_first_failure :
    (i2cproc_init false (fun _ => 0) unloaded).state = ⟨3, true, true, true⟩ ∧
    i2cproc_cleanup false (fun op => if op = .i2c_del_driver then -16 else 0)
        ⟨3, true, true, true⟩ = ⟨-16, ⟨3, true, true, true⟩, [.i2c_del_driver]⟩ ∧
    stageHeld false ⟨3, true, true, true⟩ 2 = true ∧
    releaseOp false 2 ∉ (i2cproc_cleanup false
        (fun op => if op = .i2c_del_driver then -16 else 0) ⟨3, true, true, true⟩).trace ∧
    stageHeld false ⟨3, true, true, true⟩ 1 = true ∧
    releaseOp false 1 ∉ (i2cproc_cleanup false
        (fun op => if op = .i2c_del_driver then -16 else 0) ⟨3, true, true, true⟩).trace ∧
    runModule false
        [.load (fun op => if op = .i2c_add_driver ∨ op = .proc_unregister_i2c
                            then -16 else 0),
          .load (fun op => if op = .proc_register_bus then -16 else 0)]
        unloaded = ⟨0, true, true, false⟩ ∧
    i2cproc_cleanup false (fun _ => 0) ⟨0, true, true, false⟩
      = ⟨0, ⟨0, true, true, false⟩, []⟩ ∧
    stageHeld false ⟨0, true, true, false⟩ 1 = true ∧
    stageHeld false ⟨0, true, true, false⟩ 2 = true := by
  decide

/-- C8 amended: `i2cproc_cleanup` is driven by the stage counter and gives up at the
first release that fails.  For every state and every pattern of release failures:
the host calls it makes are the releases due for the counter (those of the stages 1
to counter, highest stage first) up to and including the first one that fails, and
each is the release of a stage up to the counter; when a release of the plan fails,
the last call made is a failing one and the function returns its error, which is
not 0; it returns a value other than 0 in this case only; when no release of the
plan fails it returns 0 and the release of every stage up to the counter has been
attempted, and these are all the stages held when the counter is exact. -/
theorem cleanup_stops_at_first_failure (LINUX_2_1 : Bool) (host : HostOp → Int)
    (s : ModuleState) :
    (i2cproc_cleanup LINUX_2_1 host s).trace
      = untilFailure host (releasePlan LINUX_2_1 s.i2cproc_initialized) ∧
    (∀ op ∈ (i2cproc_cleanup LINUX_2_1 host s).trace,
      ∃ k ∈ ([1, 2, 3] : List Nat), op = releaseOp LINUX_2_1 k ∧
        (k : Int) ≤ s.i2cproc_initialized) ∧
    ((∃ op ∈ releasePlan LINUX_2_1 s.i2cproc_initialized, host op ≠ 0) →
      ∃ op, (i2cproc_cleanup LINUX_2_1 host s).trace.getLast? = some op ∧ host op ≠ 0 ∧
        (i2cproc_cleanup LINUX_2_1 host s).ret = host op) ∧
    ((i2cproc_cleanup LINUX_2_1 host s).ret ≠ 0 →
      ∃ op ∈ releasePlan LINUX_2_1 s.i2cproc_initialized, host op ≠ 0) ∧
    ((∀ op ∈ releasePlan LINUX_2_1 s.i2cproc_initialized, host op = 0) →
      (i2cproc_cleanup LINUX_2_1 host s).ret = 0 ∧
      (∀ k ∈ ([1, 2, 3] : List Nat), (k : Int) ≤ s.i2cproc_initialized →
        releaseOp LINUX_2_1 k ∈ (i2cproc_cleanup LINUX_2_1 host s).trace) ∧
      (CounterExact LINUX_2_1 s → ∀ k, stageHeld LINUX_2_1 s k = true →
        releaseOp LINUX_2_1 k ∈ (i2cproc_cleanup LINUX_2_1 host s).trace)) := by
  have ht := i2cproc_cleanup_trace LINUX_2_1 host s
  have hr := i2cproc_cleanup_ret LINUX_2_1 host s
  have key : (∀ op ∈ releasePlan LINUX_2_1 s.i2cproc_initialized, host op = 0) →
      ∀ k ∈ ([1, 2, 3] : List Nat), (k : Int) ≤ s.i2cproc_initialized →
        releaseOp LINUX_2_1 k ∈ (i2cproc_cleanup LINUX_2_1 host s).trace := by
    intro hall k hk hle
    rw [ht, untilFailure_all_ok host _ hall]
    simp only [List.mem_cons, List.mem_singleton, List.not_mem_nil, or_false] at hk
    exact releaseOp_mem_plan LINUX_2_1 _ k (by omega) (by omega) hle
  refine ⟨ht, ?_, i2cproc_cleanup_failure LINUX_2_1 host s, ?_,
    fun hall => ⟨hr.1 hall, key hall, fun hex k hkheld => ?_⟩⟩
  · intro op hop
    rw [ht] at hop
    exact mem_releasePlan LINUX_2_1 _ op ((untilFailure_sublist host _).subset hop)
  · intro hne
    by_contra hno
    apply hne
    apply hr.1
    intro op hop
    by_contra hf
    exact hno ⟨op, hop, hf⟩
  · have hmem := stageHeld_stage LINUX_2_1 s k hkheld
    exact key hall k hmem ((hex.2 k hmem).mp hkheld)

/-- C8 amended at a concrete input: the fully loaded state of the 2.0 code, the release
of the entry failing with -16.  The driver is deregistered, the release of the entry
is attempted and its error returned; the directory is not touched. -/
theorem cleanup_stops_at_first_failure_witness :
    i2cproc_cleanup false (fun op => if op = .proc_unregister_i2c then -16 else 0)
        ⟨3, true, true, true⟩
      = ⟨-16, ⟨2, true, true, false⟩, [.i2c_del_driver, .proc_unregister_i2c]⟩ ∧
    ∃ op, (i2cproc_cleanup false (fun op => if op = .proc_unregister_i2c then -16 else 0)
        ⟨3, true, true, true⟩).trace.getLast? = some op ∧
      (i2cproc_cleanup false (fun op => if op = .proc_unregister_i2c then -16 else 0)
        ⟨3, true, true, true⟩).ret
        = (fun op => if op = HostOp.proc_unregister_i2c then (-16 : Int) else 0) op := by
  have h := cleanup_stops_at_first_failure false
    (fun op => if op = .proc_unregister_i2c then -16 else 0) ⟨3, true, true, true⟩
  obtain ⟨op, h1, _, h3⟩ := h.2.2.1 (by decide)
  exact ⟨by decide, op, h1, h3⟩

/-- C9 as stated fails (2.0 code): a load whose stage 3 fails and whose rollback fails
at the entry leaves the directory and the entry held, with the counter at 2; a second
load, whose first stage fails, puts the counter back to 0 and returns, the two stages
still being held. -/
theorem second_load_forgets_held_stages :
    runModule false
        [.load (fun op => if op = .i2c_add_driver ∨ op = .proc_unregister_i2c
                            then -16 else 0),
          .load (fun op => if op = .proc_register_bus then -16 else 0)]
        unloaded = ⟨0, true, true, false⟩ ∧
    ¬ CounterExact false (runModule false
        [.load (fun op => if op = .i2c_add_driver ∨ op = .proc_unregister_i2c
                            then -16 else 0),
          .load (fun op => if op = .proc_register_bus then -16 else 0)]
        unloaded) := by
  exact ⟨by decide, by decide⟩

/-- C9 amended: after every sequence of load and unload calls starting from the
unloaded state in which load is only called while no stage is held, with every host
operation free to succeed or fail, the stage counter equals the number of stages
held, and the stages held are exactly the first that many. -/
theorem counter_exact_when_loads_find_nothing_held (LINUX_2_1 : Bool)
    (calls : List ModuleCall) (h : LoadsWhenNothingHeld LINUX_2_1 calls unloaded) :
    CounterExact LINUX_2_1 (runModule LINUX_2_1 calls unloaded) :=
  runModule_keeps_counterExact LINUX_2_1 calls unloaded (unloaded_counterExact LINUX_2_1) h

/-- C9 amended at a concrete input (2.0 code): load; an unload that fails at
`i2c_del_driver`; an unload that succeeds; a load whose stage 3 fails and whose
rollback fails at the entry.  The counter is 2 and the directory and the entry are
held. -/
theorem counter_exact_when_loads_find_nothing_held_witness :
    runModule false
        [.load (fun _ => 0), .unload (fun op => if op = .i2c_del_driver then -16 else 0),
          .unload (fun _ => 0),
          .load (fun op => if op = .i2c_add_driver ∨ op = .proc_unregister_i2c
                            then -16 else 0)]
        unloaded = ⟨2, true, true, false⟩ ∧
    CounterExact false (runModule false
        [.load (fun _ => 0), .unload (fun op => if op = .i2c_del_driver then -16 else 0),
          .unload (fun _ => 0),
          .load (fun op => if op = .i2c_add_driver ∨ op = .proc_unregister_i2c
                            then -16 else 0)]
        unloaded) :=
  ⟨by decide,
   counter_exact_when_loads_find_nothing_held false
    [.load (fun _ => 0), .unload (fun op => if op = .i2c_del_driver then -16 else 0),
      .unload (fun _ => 0),
      .load (fun op => if op = .i2c_add_driver ∨ op = .proc_unregister_i2c
                        then -16 else 0)]
    (by decide)⟩

/-- C10: in every state reached from the unloaded state by load and unload calls, if
`i2cproc_cleanup` returns 0 and is called again, the second call returns 0, makes no
host call and leaves the state as it was, with the stage counter at 0. -/
theorem second_unload_is_noop (LINUX_2_1 : Bool) (calls : List ModuleCall)
    (host1 host2 : HostOp → Int)
    (h : (i2cproc_cleanup LINUX_2_1 host1 (runModule LINUX_2_1 calls unloaded)).ret = 0) :
    i2cproc_cleanup LINUX_2_1 host2
        (i2cproc_cleanup LINUX_2_1 host1 (runModule LINUX_2_1 calls unloaded)).state
      = ⟨0, (i2cproc_cleanup LINUX_2_1 host1 (runModule LINUX_2_1 calls unloaded)).state, []⟩ ∧
    (i2cproc_cleanup LINUX_2_1 host1
        (runModule LINUX_2_1 calls unloaded)).state.i2cproc_initialized = 0 := by
  have hr := runModule_keeps_range LINUX_2_1 calls unloaded (Or.inl rfl)
  have hz := i2cproc_cleanup_success_zero LINUX_2_1 host1 _ hr h
  exact ⟨i2cproc_cleanup_at_zero LINUX_2_1 host2 _ hz, hz⟩

/-- C10 at a concrete input (2.1 code): after a load, an unload that succeeds, then an
unload during which every host call would fail. -/
theorem second_unload_is_noop_witness :
    i2cproc_cleanup true (fun _ => -16)
        (i2cproc_cleanup true (fun _ => 0) (runModule true
          [.load (fun op => if op = .i2c_add_driver then 0 else 1)] unloaded)).state
      = ⟨0, unloaded, []⟩ := by
  have h := second_unload_is_noop true [.load (fun op => if op = .i2c_add_driver then 0 else 1)]
    (fun _ => 0) (fun _ => -16) (by decide)
  exact h.1.trans (by decide)

/-! ### Claims on attach and detach -/

/-- C11: for every table with at least one empty slot and every included adapter for
which the host delivers the listener object and accepts its registration,
`i2cproc_attach_adapter` returns 0 and stores the adapter in the empty slot of lowest
index (every slot before it is occupied); every other slot is as before. -/
theorem attach_stores_in_lowest_empty_slot (DEBUG : Bool) (mem : AdapterPtr → i2c_adapter)
    (adapter : AdapterPtr) (tab : AdapterTable)
    (hincl : DEBUG = true ∨ (mem adapter).is_isa = false)
    (hfree : none ∈ tab) :
    ∃ i, i < tab.length ∧ tab[i]? = some none ∧
      (∀ j, j < i → ∃ a, tab[j]? = some (some a)) ∧
      i2cproc_attach_adapter DEBUG mem true 0 adapter tab
        = ⟨0, tab.set i (some adapter), [.kmalloc, .i2c_attach_client adapter]⟩ ∧
      (i2cproc_attach_adapter DEBUG mem true 0 adapter tab).table[i]? = some (some adapter) ∧
      (∀ j, j ≠ i →
        (i2cproc_attach_adapter DEBUG mem true 0 adapter tab).table[j]? = tab[j]?) := by
  have hlt := attach_scan_lt_of_free tab hfree
  obtain ⟨_, h2, h3⟩ := attach_scan_spec tab
  have hi : (!DEBUG && (mem adapter).is_isa) = false := by
    rcases hincl with h | h <;> simp [h]
  have e : i2cproc_attach_adapter DEBUG mem true 0 adapter tab
      = ⟨0, tab.set (attach_scan tab 0) (some adapter),
          [.kmalloc, .i2c_attach_client adapter]⟩ := by
    unfold i2cproc_attach_adapter
    simp [hi, Nat.ne_of_lt hlt]
  refine ⟨attach_scan tab 0, hlt, h3 hlt, h2, e, ?_, ?_⟩
  · rw [e]
    simp [List.getElem?_set, hlt]
  · intro j hj
    rw [e]
    simp [List.getElem?_set, Ne.symm hj]

/-- C11 at a concrete input: slots 0 and 2 occupied, slots 1 and 3 empty; the adapter
goes to slot 1. -/
theorem attach_stores_in_lowest_empty_slot_witness :
    i2cproc_attach_adapter false (fun _ => ⟨[], [], false, false⟩) true 0 9
        [some 4, none, some 5, none]
      = ⟨0, [some 4, some 9, some 5, none], [.kmalloc, .i2c_attach_client 9]⟩ ∧
    ∃ i, i < 4 ∧ (i2cproc_attach_adapter false (fun _ => ⟨[], [], false, false⟩) true 0 9
        [some 4, none, some 5, none]).table[i]? = some (some 9) := by
  obtain ⟨i, hlt, _, _, _, e, _⟩ := attach_stores_in_lowest_empty_slot false
    (fun _ => ⟨[], [], false, false⟩) 9 [some 4, none, some 5, none] (Or.inr rfl) (by decide)
  exact ⟨by decide, i, hlt, e⟩

/-- C12: for every table and every included adapter, when `i2c_attach_client` returns
an error, `i2cproc_attach_adapter` leaves the table as it was, and if it made the call
(there was an empty slot and `kmalloc` delivered, and only then) it returns that
error. -/
theorem attach_registration_failure_keeps_table (DEBUG : Bool)
    (mem : AdapterPtr → i2c_adapter) (kmalloc_ok : Bool) (attach_res : Int)
    (adapter : AdapterPtr) (tab : AdapterTable)
    (hincl : DEBUG = true ∨ (mem adapter).is_isa = false)
    (hfail : attach_res ≠ 0) :
    (i2cproc_attach_adapter DEBUG mem kmalloc_ok attach_res adapter tab).table = tab ∧
    (BusCall.i2c_attach_client adapter
        ∈ (i2cproc_attach_adapter DEBUG mem kmalloc_ok attach_res adapter tab).calls →
      (i2cproc_attach_adapter DEBUG mem kmalloc_ok attach_res adapter tab).ret = attach_res) ∧
    (BusCall.i2c_attach_client adapter
        ∈ (i2cproc_attach_adapter DEBUG mem kmalloc_ok attach_res adapter tab).calls ↔
      (none ∈ tab ∧ kmalloc_ok = true)) := by
  have hi : (!DEBUG && (mem adapter).is_isa) = false := by
    rcases hincl with h | h <;> simp [h]
  by_cases hfree : none ∈ tab
  · have hlt := attach_scan_lt_of_free tab hfree
    cases kmalloc_ok <;>
      simp [i2cproc_attach_adapter, hi, Nat.ne_of_lt hlt, hfail, hfree]
  · have hfull : ∀ cell ∈ tab, cell ≠ none := fun cell hc e => hfree (e ▸ hc)
    simp [i2cproc_attach_adapter, hi, attach_scan_full tab hfull, hfree]

/-- C12 at a concrete input: an empty slot, `kmalloc` delivers, `i2c_attach_client`
returns -16. -/
theorem attach_registration_failure_keeps_table_witness :
    (i2cproc_attach_adapter false (fun _ => ⟨[], [], false, false⟩) true (-16) 9
        [some 4, none]).table = [some 4, none] ∧
    (i2cproc_attach_adapter false (fun _ => ⟨[], [], false, false⟩) true (-16) 9
        [some 4, none]).ret = -16 := by
  have h := attach_registration_failure_keeps_table false
    (fun _ => ⟨[], [], false, false⟩) true (-16) 9 [some 4, none] (Or.inr rfl) (by decide)
  exact ⟨h.1, h.2.1 (h.2.2.mpr (by decide))⟩

/-- C13: for every table and every included listener whose adapter occupies a slot, if
`i2c_detach_client` returns an error, `i2cproc_detach_client` returns that error and
the table is unchanged; if it returns 0, `i2cproc_detach_client` returns 0, the slot
found (the first one holding the adapter) is cleared and every other slot is as
before. -/
theorem detach_found (DEBUG : Bool) (mem : AdapterPtr → i2c_adapter) (detach_res : Int)
    (client : i2c_client) (tab : AdapterTable)
    (hincl : DEBUG = true ∨ (mem client.adapter).is_isa = false)
    (hocc : some client.adapter ∈ tab) :
    (detach_res ≠ 0 →
      i2cproc_detach_client DEBUG mem detach_res client tab
        = ⟨detach_res, tab, [.i2c_detach_client client.adapter]⟩) ∧
    (detach_res = 0 →
      ∃ i, tab[i]? = some (some client.adapter) ∧
        (∀ j, j < i → tab[j]? ≠ some (some client.adapter)) ∧
        i2cproc_detach_client DEBUG mem detach_res client tab
          = ⟨0, tab.set i none, [.i2c_detach_client client.adapter, .kfree]⟩ ∧
        (i2cproc_detach_client DEBUG mem detach_res client tab).table[i]? = some none ∧
        (∀ j, j ≠ i →
          (i2cproc_detach_client DEBUG mem detach_res client tab).table[j]? = tab[j]?)) := by
  have hi : (!DEBUG && (mem client.adapter).is_isa) = false := by
    rcases hincl with h | h <;> simp [h]
  obtain ⟨k, k1, k2, k3⟩ := detach_scan_found detach_res client.adapter tab tab 0 hocc
  have e : i2cproc_detach_client DEBUG mem detach_res client tab
      = detach_scan detach_res client.adapter tab tab 0 := by
    simp [i2cproc_detach_client, hi]
  rw [e, k3]
  refine ⟨fun hne => by simp [hne], fun h0 => ⟨k, k1, k2, by simp [h0], ?_, ?_⟩⟩
  · have hk : k < tab.length := by
      rcases Nat.lt_or_ge k tab.length with h | h
      · exact h
      · rw [List.getElem?_eq_none h] at k1
        exact absurd k1 (by simp)
    simp [h0, List.getElem?_set, hk]
  · intro j hj
    simp [h0, List.getElem?_set, Ne.symm hj]

/-- C13 at a concrete input: the adapter 5 in slot 1 of three, deregistration
succeeding. -/
theorem detach_found_witness :
    i2cproc_detach_client false (fun _ => ⟨[], [], false, false⟩) 0 ⟨5⟩
        [some 4, some 5, some 6]
      = ⟨0, [some 4, none, some 6], [.i2c_detach_client 5, .kfree]⟩ ∧
    ∃ i : Nat, (i2cproc_detach_client false (fun _ => ⟨[], [], false, false⟩) 0 ⟨5⟩
        [some 4, some 5, some 6]).table[i]? = some none := by
  obtain ⟨i, _, _, _, e, _⟩ := (detach_found false (fun _ => ⟨[], [], false, false⟩) 0 ⟨5⟩
    [some 4, some 5, some 6] (Or.inr rfl) (by decide)).2 rfl
  exact ⟨by decide, i, e⟩

/-- C14: for every table and every included listener whose adapter is held by no
occupied slot, `i2cproc_detach_client` returns `-ENOENT`, makes no host call and leaves
the table as it was. -/
theorem detach_absent_not_found (DEBUG : Bool) (mem : AdapterPtr → i2c_adapter)
    (detach_res : Int) (client : i2c_client) (tab : AdapterTable)
    (hincl : DEBUG = true ∨ (mem client.adapter).is_isa = false)
    (habs : some client.adapter ∉ tab) :
    i2cproc_detach_client DEBUG mem detach_res client tab = ⟨-ENOENT, tab, []⟩ := by
  have hi : (!DEBUG && (mem client.adapter).is_isa) = false := by
    rcases hincl with h | h <;> simp [h]
  simp only [i2cproc_detach_client, hi]
  exact detach_scan_absent detach_res client.adapter tab tab 0 habs

/-- C14 at a concrete input: the adapter 7 is in no slot. -/
theorem detach_absent_not_found_witness :
    i2cproc_detach_client false (fun _ => ⟨[], [], false, false⟩) 0 ⟨7⟩
        [some 4, none, some 6] = ⟨-2, [some 4, none, some 6], []⟩ :=
  detach_absent_not_found false (fun _ => ⟨[], [], false, false⟩) 0 ⟨7⟩
    [some 4, none, some 6] (Or.inr rfl) (by decide)

/-- C15: with two slots and every host call succeeding, attaching A (1) then B (2),
detaching A, then attaching C (3) leaves C in slot 0 and B in slot 1; and in general,
when a successful detach clears slot `i` of a table whose slots below `i` are all
occupied, the next successful attach (of any included adapter) occupies slot `i` and
changes nothing else. -/
theorem freed_slot_is_reused :
    runNotifications false (fun _ => ⟨[], [], false, false⟩)
        [.attach 1 true 0, .attach 2 true 0, .detach ⟨1⟩ 0, .attach 3 true 0]
        (emptyTable 2) = [some 3, some 2] ∧
    ∀ (DEBUG : Bool) (mem : AdapterPtr → i2c_adapter) (client : i2c_client)
      (adapter : AdapterPtr) (tab : AdapterTable) (i : Nat),
      (DEBUG = true ∨ (mem adapter).is_isa = false) →
      (∀ j, j < i → ∃ a, tab[j]? = some (some a)) →
      i2cproc_detach_client DEBUG mem 0 client tab
        = ⟨0, tab.set i none, [.i2c_detach_client client.adapter, .kfree]⟩ →
      i < tab.length →
      i2cproc_attach_adapter DEBUG mem true 0 adapter
          (i2cproc_detach_client DEBUG mem 0 client tab).table
        = ⟨0, tab.set i (some adapter), [.kmalloc, .i2c_attach_client adapter]⟩ := by
  refine ⟨by decide, ?_⟩
  intro DEBUG mem client adapter tab i hincl hlow hdet hlt
  have hi : (!DEBUG && (mem adapter).is_isa) = false := by
    rcases hincl with h | h <;> simp [h]
  rw [hdet]
  have hscan : attach_scan (tab.set i none) 0 = i := by
    apply attach_scan_eq
    · simp [List.getElem?_set, hlt]
    · intro j hj
      obtain ⟨a, ha⟩ := hlow j hj
      exact ⟨a, by simp [List.getElem?_set, Nat.ne_of_gt hj, ha]⟩
  unfold i2cproc_attach_adapter
  simp [hi, hscan, Nat.ne_of_lt hlt]

/-- C15 at a concrete input: the adapter 5 leaves slot 1 of three occupied slots and
the adapter 8 takes it. -/
theorem freed_slot_is_reused_witness :
    i2cproc_attach_adapter false (fun _ => ⟨[], [], false, false⟩) true 0 8
        (i2cproc_detach_client false (fun _ => ⟨[], [], false, false⟩) 0 ⟨5⟩
          [some 4, some 5, some 6]).table
      = ⟨0, [some 4, some 8, some 6], [.kmalloc, .i2c_attach_client 8]⟩ :=
  freed_slot_is_reused.2 false (fun _ => ⟨[], [], false, false⟩) ⟨5⟩ 8
    [some 4, some 5, some 6] 1 (Or.inr rfl)
    (by intro j hj
        have : j = 0 := by omega
        subst this
        exact ⟨4, rfl⟩)
    (by decide) (by decide)

/-! ### Claims on the stage counter -/

/-- C18: in every state reached from the unloaded state by load and unload calls,
`i2cproc_cleanup` makes its release calls in reverse acquisition order (the driver
registration before the entry, the entry before the directory), starting with the
highest stage the counter allows and going down until a call fails; every call it
makes releases a stage numbered at most the counter, and that stage is held; and it
returns 0 only with the counter at 0 afterwards. -/
theorem unload_releases_in_reverse_order (LINUX_2_1 : Bool) (calls : List ModuleCall)
    (host : HostOp → Int) :
    (i2cproc_cleanup LINUX_2_1 host (runModule LINUX_2_1 calls unloaded)).trace
      = untilFailure host
          (releasePlan LINUX_2_1 (runModule LINUX_2_1 calls unloaded).i2cproc_initialized) ∧
    ((i2cproc_cleanup LINUX_2_1 host (runModule LINUX_2_1 calls unloaded)).trace).Sublist
      (releaseOrder LINUX_2_1) ∧
    (∀ op ∈ (i2cproc_cleanup LINUX_2_1 host (runModule LINUX_2_1 calls unloaded)).trace,
      ∃ k ∈ ([1, 2, 3] : List Nat), op = releaseOp LINUX_2_1 k ∧
        (k : Int) ≤ (runModule LINUX_2_1 calls unloaded).i2cproc_initialized ∧
        stageHeld LINUX_2_1 (runModule LINUX_2_1 calls unloaded) k = true) ∧
    ((i2cproc_cleanup LINUX_2_1 host (runModule LINUX_2_1 calls unloaded)).ret = 0 →
      (i2cproc_cleanup LINUX_2_1 host
        (runModule LINUX_2_1 calls unloaded)).state.i2cproc_initialized = 0) := by
  have hinv := runModule_keeps_heldUpTo LINUX_2_1 calls unloaded (by cases LINUX_2_1 <;> decide)
  have ht := i2cproc_cleanup_trace LINUX_2_1 host (runModule LINUX_2_1 calls unloaded)
  refine ⟨ht, ?_, ?_, i2cproc_cleanup_success_zero LINUX_2_1 host _ hinv.1⟩
  · rw [ht]
    exact (untilFailure_sublist host _).trans (releasePlan_sublist_order LINUX_2_1 _ hinv.1)
  · intro op hop
    rw [ht] at hop
    obtain ⟨k, hk, e, hle⟩ := mem_releasePlan LINUX_2_1 _ op
      ((untilFailure_sublist host _).subset hop)
    exact ⟨k, hk, e, hle, hinv.2 k hk hle⟩

/-- C18 at a concrete input (2.0 code): after a load whose stage 3 failed and whose
rollback failed at the entry the counter is 2; an unload then releases the entry and
the directory, in this order, and does not call `i2c_del_driver`. -/
theorem unload_releases_in_reverse_order_witness :
    (i2cproc_cleanup false (fun _ => 0) (runModule false
        [.load (fun op => if op = .i2c_add_driver ∨ op = .proc_unregister_i2c
                            then -16 else 0)] unloaded)).trace
      = [.proc_unregister_i2c, .proc_unregister_bus] ∧
    (i2cproc_cleanup false (fun _ => 0) (runModule false
        [.load (fun op => if op = .i2c_add_driver ∨ op = .proc_unregister_i2c
                            then -16 else 0)] unloaded)).state.i2cproc_initialized = 0 := by
  have h := unload_releases_in_reverse_order false
    [.load (fun op => if op = .i2c_add_driver ∨ op = .proc_unregister_i2c then -16 else 0)]
    (fun _ => 0)
  exact ⟨by decide, h.2.2.2 (by decide)⟩

/-- C19: in every state reached from the unloaded state by `i2cproc_init` and
`i2cproc_cleanup` calls with arbitrary host successes and failures, in the 2.0 code
and in the 2.1 code (which adds and subtracts 2 in one step), the stage counter is
between 0 and 3 (and is not 1 in the 2.1 code); it is 3 after a load exactly when the
three stages of that load succeeded, and an unload never raises it. -/
theorem stage_counter_in_range (LINUX_2_1 : Bool) (calls : List ModuleCall) :
    (0 ≤ (runModule LINUX_2_1 calls unloaded).i2cproc_initialized ∧
      (runModule LINUX_2_1 calls unloaded).i2cproc_initialized ≤ 3) ∧
    StageCounterRange LINUX_2_1 (runModule LINUX_2_1 calls unloaded).i2cproc_initialized ∧
    (∀ host : HostOp → Int,
      (i2cproc_init LINUX_2_1 host
          (runModule LINUX_2_1 calls unloaded)).state.i2cproc_initialized = 3 ↔
        ∀ k ∈ ([1, 2, 3] : List Nat), acquires LINUX_2_1 host k = true) ∧
    (∀ host : HostOp → Int,
      (i2cproc_cleanup LINUX_2_1 host
          (runModule LINUX_2_1 calls unloaded)).state.i2cproc_initialized
        ≤ (runModule LINUX_2_1 calls unloaded).i2cproc_initialized) := by
  have hr := runModule_keeps_range LINUX_2_1 calls unloaded (Or.inl rfl)
  refine ⟨?_, hr, fun host => i2cproc_init_counter_three LINUX_2_1 host _,
    fun host => i2cproc_cleanup_counter_le LINUX_2_1 host _⟩
  unfold StageCounterRange at hr
  omega
end Sensors
